import Mathlib

/-!
# uparse: the matching engine `_match` of `uparse.c`

A shallow embedding of the matcher `_match`, of the message builder `_expect_msg` and of
the macros `accept`, `acceptall`, `expect`, `expectall` of `uparse.c` and `uparse.h`, and
theorems about them.

Conventions of the embedding.

* A C string is the list of its characters before the terminating NUL; reading
  at or past the end of the list yields the terminator `'\0'`.
* Pointers into the line (`uulp`, `lpfail`, `arg[i].lp`, the local `lp`) are
  offsets from `uuline`.
* A terminal reference `char *` is compared by identity in the source; here it is
  a value of the tagged type `Term`.  No user terminal is registered, so
  `lookup_term(cp, USRTERMS)` finds nothing and every reference that is not a
  built-in is matched literally.
* `uuerror` never returns to `_match` (it unwinds through `longjmp` when a recovery
  point is established and stops in its `assert` otherwise); the embedding records
  it as the outcome `Outcome.fatal` carrying the globals at that moment.
* Reads and writes that C leaves undefined (the byte before an empty literal, a
  capture slot at index `UUMAX_ARGS` or above, a message longer than the buffer
  `uumsg`) give `Outcome.undefined`.
* `int` counters (`len`, `argmatch`, `argfail`) are natural numbers or integers
  without wrap-around: they count characters of one line or terminals of one call.
-/

namespace Uparse

/-! ## `<ctype.h>` in the C locale, `<string.h>`, `<limits.h>` -/

/-- The C-locale `isspace`: space, `\t`, `\n`, `\v`, `\f`, `\r`. -/
def isspace (c : Char) : Bool :=
  c.toNat == 32 || (9 ≤ c.toNat && c.toNat ≤ 13)

/-- The C-locale `isdigit`. -/
def isdigit (c : Char) : Bool :=
  48 ≤ c.toNat && c.toNat ≤ 57

/-- The C-locale `isalpha`. -/
def isalpha (c : Char) : Bool :=
  (65 ≤ c.toNat && c.toNat ≤ 90) || (97 ≤ c.toNat && c.toNat ≤ 122)

/-- The C-locale `isalnum`. -/
def isalnum (c : Char) : Bool :=
  isalpha c || isdigit c

/-- The character `s[k]` of a C string: the terminator at and past the end. -/
def charAt (s : List Char) (k : Nat) : Char :=
  s.getD k '\x00'

/-- The function `strlen`. -/
def strlen (s : List Char) : Nat :=
  s.length

/-- The function `strncmp(s1, s2, n)`: the difference of the first differing
characters among the first `n`, stopping at a terminator. -/
def strncmp : List Char → List Char → Nat → Int
  | _, _, 0 => 0
  | s1, s2, n + 1 =>
    if charAt s1 0 ≠ charAt s2 0 then ((charAt s1 0).toNat : Int) - ((charAt s2 0).toNat : Int)
    else if charAt s1 0 = '\x00' then 0
    else strncmp s1.tail s2.tail n

/-- The function `strchr(s, c)`: the offset of the first `c` in `s` (the terminator
included), `none` for a NULL result. -/
def strchr (s : List Char) (c : Char) : Option Nat :=
  if c = '\x00' then some s.length
  else if s.indexOf c < s.length then some (s.indexOf c) else none

/-- Modelled from the spec: `LONG_MAX` of `<limits.h>`, the maximum signed 64-bit
integer. -/
def LONG_MAX : Int := 9223372036854775807

/-- The capacity `UUMAX_ARGS` of the capture buffer `arg[]`. -/
def UUMAX_ARGS : Nat := 10

/-! ## Data model -/

/-- A terminal reference: one of the six built-in handles or literal text. -/
inductive Term where
  | eol
  | string
  | ident
  | identwc
  | integer
  | word
  | lit (cp : List Char)
  deriving DecidableEq

/-- The capture slot `struct uuargval`. -/
structure uuargval where
  /-- the terminal (`NULL` before the first call) -/
  term : Option Term
  /-- offset of the matched text in the line -/
  lp : Nat
  /-- generally, the length of the matched text -/
  len : Nat
  /-- the converted value -/
  i : Int
  deriving DecidableEq

/-- The globals of `uparse.c` that `_match` reads or writes. -/
structure State where
  uuline : List Char
  uulp : Nat
  lpfail : Nat
  argmatch : Int
  argfail : Nat
  arg : Nat → uuargval
  uumsg : String

/-- How a call of `_match` ends. -/
inductive Outcome where
  /-- `return r` with the globals as left by the call -/
  | ret (r : Nat) (s : State)
  /-- `uuerror(...)`: the message is in `uumsg`, control does not return -/
  | fatal (s : State)
  /-- behaviour that C leaves undefined -/
  | undefined

/-- How the dispatch on one terminal ends, with the local `lp` and the slot
`arg[i]` at that point. -/
inductive Step where
  /-- control reaches the trailing whitespace skip -/
  | matched (lp : Nat) (a : uuargval)
  /-- `goto no_match` -/
  | no_match (lp : Nat) (a : uuargval)
  /-- `uuerror(msg)` -/
  | error (msg : String) (a : uuargval)
  /-- an out-of-bounds read -/
  | undefined
  deriving DecidableEq

/-! ## The scanning loops -/

/-- The loop `while (isspace(*lp)) ++lp;`: the number of increments, on the text at `lp`. -/
def spaces : List Char → Nat
  | [] => 0
  | c :: cs => if isspace c then spaces cs + 1 else 0

/-- The position after `while (isspace(*lp)) ++lp;`. -/
def skipws (line : List Char) (lp : Nat) : Nat :=
  lp + spaces (line.drop lp)

/-- The loop of the quoted-string branch, on the text after the opening quote, `prev`
being `*(lp-1)`: the number of characters counted in `arg[i].len` before the loop
leaves (at a terminator, or at a quote not preceded by a backslash). -/
def stringLoop (prev : Char) : List Char → Nat
  | [] => 0
  | c :: cs =>
    if c = '\x00' then 0
    else if c = '"' && prev ≠ '\\' then 0
    else stringLoop c cs + 1

/-- The iterations of the identifier `do ... while` after the first: the loop
`while (*lp && (isalnum(*lp) || *lp=='_')) ++len, ++lp;`. -/
def identLoop : List Char → Nat
  | [] => 0
  | c :: cs => if c ≠ '\x00' && (isalnum c || c = '_') then identLoop cs + 1 else 0

/-- The string `wc_all`. -/
def wc_all : List Char := ['?', '*', '[', '!', '-', ']']

/-- The string `wc_flag`. -/
def wc_flag : List Char := ['?', '*', '[']

/-- The body `if (wcyes == NULL) wcyes = strchr(wc_flag, *lp);` of the wildcard loop. -/
def wcBody (wcyes : Option Nat) (c : Char) : Option Nat :=
  if wcyes = none then strchr wc_flag c else wcyes

/-- The iterations of the wildcard-identifier `do ... while` after the first: the
count of further characters and the final `wcyes`. -/
def identwcLoop (wcyes : Option Nat) : List Char → Nat × Option Nat
  | [] => (0, wcyes)
  | c :: cs =>
    if c ≠ '\x00' && (isalnum c || c = '_' || (strchr wc_all c).isSome) then
      ((identwcLoop (wcBody wcyes c) cs).1 + 1, (identwcLoop (wcBody wcyes c) cs).2)
    else (0, wcyes)

/-- The loop of the integer branch from the value `val`: `none` when `uuerror` is
called, else the final `val` and the number of digits read. -/
def integerLoop (val : Int) : List Char → Option (Int × Nat)
  | [] => some (val, 0)
  | c :: cs =>
    if c ≠ '\x00' && isdigit c then
      if val > LONG_MAX / 10
          || (val == LONG_MAX / 10 && ((c.toNat : Int) - 48) > LONG_MAX % 10) then none
      else
        match integerLoop (val * 10 + ((c.toNat : Int) - 48)) cs with
        | none => none
        | some (v, n) => some (v, n + 1)
    else some (val, 0)

/-- The loop `while (*lp && !isspace(*lp)) ++arg[i].len, ++lp;` of the word branch. -/
def wordLoop : List Char → Nat
  | [] => 0
  | c :: cs => if c ≠ '\x00' && !isspace c then wordLoop cs + 1 else 0

/-! ## Dispatch on the terminal (lines 132-219) -/

/-- The branch taken for the terminal `cp` with the local `lp` already past the
leading whitespace and `a` the slot `arg[i]` after `term`, `len = 0` and `lp` were
stored. `uulp` is the global cursor, which the literal branch reads. -/
def dispatch (line : List Char) (uulp : Nat) (cp : Term) (lp : Nat) (a : uuargval) : Step :=
  match cp with
  | .eol =>
    if charAt line lp ≠ '\x00' then .no_match lp a else .matched lp a
  | .string =>
    if charAt line lp = '"' then
      let n := stringLoop '"' (line.drop (lp + 1))
      let a1 := { a with lp := a.lp + 1, len := n }
      if charAt line (lp + 1 + n) ≠ '"' then .error "unterminated string" a1
      else .matched (lp + 1 + n + 1) a1
    else .no_match lp a
  | .ident =>
    if isalpha (charAt line lp) || charAt line lp = '_' then
      let n := identLoop (line.drop (lp + 1))
      .matched (lp + 1 + n) { a with len := n + 1 }
    else .no_match lp a
  | .identwc =>
    if charAt line lp ≠ '\x00'
        && (isalpha (charAt line lp) || charAt line lp = '_'
            || (strchr wc_flag (charAt line lp)).isSome) then
      let w0 : Option Nat :=
        if isalpha (charAt line lp) || charAt line lp = '_' then none
        else strchr wc_flag (charAt line lp)
      let r := identwcLoop (wcBody w0 (charAt line lp)) (line.drop (lp + 1))
      if r.2 = none then .no_match (lp + 1 + r.1) { a with len := r.1 + 1 }
      else .matched (lp + 1 + r.1) { a with len := r.1 + 1 }
    else .no_match lp a
  | .integer =>
    if isdigit (charAt line lp) then
      match integerLoop 0 (line.drop lp) with
      | none => .error "integer overflow" a
      | some (val, n) => .matched (lp + n) { a with i := val }
    else .no_match lp a
  | .word =>
    let n := wordLoop (line.drop lp)
    if n = 0 then .no_match (lp + n) { a with len := n }
    else .matched (lp + n) { a with len := n }
  | .lit cp =>
    let l := strlen cp
    let a1 := { a with len := l }
    if strncmp cp (line.drop lp) l = 0 then
      if l = 0 then .undefined
      else if isalpha (charAt cp (l - 1)) then
        if isalpha (charAt line (lp + l)) then .no_match lp a1 else .matched (lp + l) a1
      else if isdigit (charAt cp (l - 1)) then
        if isdigit (charAt line (uulp + l)) then .no_match lp a1 else .matched (lp + l) a1
      else .matched (lp + l) a1
    else .no_match lp a1

/-! ## The matcher `_match` (lines 110-258) -/

/-- Store `a` in `arg[i]`. -/
def setArg (arg : Nat → uuargval) (i : Nat) (a : uuargval) : Nat → uuargval :=
  fun k => if k = i then a else arg k

/-- The `for` loop of `_match` from index `i` on the remaining terminals, with the
local `lp`; `s.uulp` is the global cursor, which the loop does not change. -/
def matchLoop (all : Bool) (resetlp : Nat) : List Term → Nat → Nat → State → Outcome
  | [], _, lp, s =>
    if all then .ret 1 { s with uulp := lp }
    else .ret 0 { s with argfail := 0, uulp := resetlp }
  | cp :: rest, i, lp, s =>
    if UUMAX_ARGS ≤ i then .undefined
    else
      let lp1 := skipws s.uuline lp
      match dispatch s.uuline s.uulp cp lp1 { (s.arg i) with term := some cp, len := 0, lp := lp1 } with
      | .matched lp2 a =>
        if all then
          matchLoop all resetlp rest (i + 1) (skipws s.uuline lp2) { s with arg := setArg s.arg i a }
        else
          .ret 1 { s with arg := setArg s.arg i a, uulp := skipws s.uuline lp2, argmatch := i }
      | .no_match lp2 a =>
        if all then
          .ret 0 { s with arg := setArg s.arg i a, argfail := i, lpfail := lp2, uulp := resetlp }
        else
          matchLoop all resetlp rest (i + 1) s.uulp { s with arg := setArg s.arg i a }
      | .error msg a => .fatal { s with arg := setArg s.arg i a, uumsg := msg }
      | .undefined => .undefined

/-- The function `_match(all, ac, ...)` on the `ac` terminals `ts`. -/
def _match (all : Bool) (ts : List Term) (s : State) : Outcome :=
  matchLoop all s.uulp ts 0 s.uulp { s with argmatch := -1, lpfail := s.uulp }

/-- The globals when the caller has set `uuline = uulp = line` and nothing has been
matched yet. -/
def start (line : List Char) : State :=
  { uuline := line, uulp := 0, lpfail := 0, argmatch := 0, argfail := 0,
    arg := fun _ => { term := none, lp := 0, len := 0, i := 0 }, uumsg := "" }

/-! ## One terminal tried alone -/

/-- What the dispatch on one terminal decides and where it leaves the local `lp`,
the slot left out. -/
inductive Verdict where
  /-- the terminal matched, `lp` is just past the match -/
  | matched (lp : Nat)
  /-- `goto no_match` with this `lp` -/
  | no_match (lp : Nat)
  /-- `uuerror(msg)` -/
  | error (msg : String)
  /-- an out-of-bounds read -/
  | undefined
  deriving DecidableEq

/-- Forget the slot of a `Step`. -/
def Step.verdict : Step → Verdict
  | .matched lp _ => .matched lp
  | .no_match lp _ => .no_match lp
  | .error msg _ => .error msg
  | .undefined => .undefined

/-- The terminal `t` tried with the local pointer at `lp` while the global cursor is
`uulp`: the leading whitespace skip of the loop body followed by the dispatch, on a fresh
slot (the verdict does not depend on the slot, see `dispatch_verdict`). -/
def attempt (line : List Char) (uulp : Nat) (t : Term) (lp : Nat) : Verdict :=
  (dispatch line uulp t (skipws line lp)
    { term := some t, lp := skipws line lp, len := 0, i := 0 }).verdict

/-- The dispatch ended in an ordinary no-match (`goto no_match`). -/
def Verdict.isNoMatch : Verdict → Bool
  | .no_match _ => true
  | _ => false

/-- The dispatch ended in a match. -/
def Verdict.isMatched : Verdict → Bool
  | .matched _ => true
  | _ => false

/-! ## Notions used in the statements -/

/-- The terminals `ts` matched in sequence from the local position `lp` while the global
cursor is `uulp`: each terminal is tried where the previous one left off, after the
whitespace that follows it; the position reached when all of them match. -/
def runAll (line : List Char) (uulp : Nat) : List Term → Nat → Option Nat
  | [], lp => some lp
  | t :: ts, lp =>
    match attempt line uulp t lp with
    | .matched q => runAll line uulp ts (skipws line q)
    | _ => none

/-- In the sequence `ts` started at `lp`, the terminals `0..i-1` match one after the
other and terminal `i` does not. -/
def failsAt (line : List Char) (uulp : Nat) (ts : List Term) (lp i : Nat) : Prop :=
  ∃ p t, runAll line uulp (ts.take i) lp = some p ∧ ts[i]? = some t ∧
    (attempt line uulp t p).isMatched = false

/-- A character that continues a wildcard identifier: a letter, a digit, an underscore
or one of the glob characters `? * [ ! - ]`. -/
def isWcChar (c : Char) : Bool :=
  c != '\x00' && (isalnum c || c == '_' || wc_all.contains c)

/-- The length of the run of wildcard-identifier characters at the head of a text. -/
def wcRun (l : List Char) : Nat :=
  (l.takeWhile isWcChar).length

/-- The successive single-terminal calls `_match(1, 1, t1)`, `_match(1, 1, t2)`, ...,
each on the globals left by the previous one; the calls stop at the first one that does
not return 1. -/
def seqCalls : List Term → State → Outcome
  | [], s => .ret 1 s
  | t :: ts, s =>
    match _match true [t] s with
    | .ret r s' => if r = 1 then seqCalls ts s' else .ret r s'
    | o => o

/-- The maximal run of decimal digits at the head of a text. -/
def digitRun (text : List Char) : List Char :=
  text.takeWhile isdigit

/-- The decimal value of a string of digits (leading zeros allowed). -/
def decimalValue (ds : List Char) : Nat :=
  ds.foldl (fun v c => 10 * v + (c.toNat - 48)) 0

/-! ## The terminal table and the message builder `_expect_msg` (lines 23-82) -/

/-- The size `MAX_UUMSG` of the message buffer `uumsg`. -/
def MAX_UUMSG : Nat := 120

/-- The text a terminal reference points to: the contents of the array of a built-in
(`eol`, `string`, `ident`, `identwc`, `integer`, `word`), the text of a literal. -/
def Term.text : Term → List Char
  | .eol => "end of line".toList
  | .string => "quoted string".toList
  | .ident => "identifier".toList
  | .identwc => "identifier+glob".toList
  | .integer => "integer".toList
  | .word => "word".toList
  | .lit cp => cp

/-- The names in the table `_term`: the six built-in handles, no user terminal. -/
def _term : List Term :=
  [Term.eol, Term.string, Term.ident, Term.identwc, Term.integer, Term.word]

/-- The index `USRTERMS` into `_term` where user terminals start. -/
def USRTERMS : Nat := 6

/-- The index `ALLTERMS`. -/
def ALLTERMS : Nat := 0

/-- The count `_termcnt` of entries of `_term`. -/
def _termcnt : Nat := 6

/-- The function `lookup_term(term, scope)`: the index of the first entry from `scope` on
whose name is the reference `term` (a comparison of pointers in the source, of tags
here), `none` for NULL. -/
def lookup_term (term : Term) (scope : Nat) : Option Nat :=
  (List.range' scope (_termcnt - scope)).find? (fun i => decide (_term[i]? = some term))

/-- The loop `while (ac--)` of `_expect_msg` on the remaining arguments, `i` being the
index of the next one and `msg` the contents of `uumsg`. -/
def expectLoop (argfail : Nat) : List Term → Nat → List Char → List Char
  | [], _, msg => msg
  | va :: rest, i, msg =>
    expectLoop argfail rest (i + 1)
      (if argfail ≤ i then
        (if (lookup_term va ALLTERMS).isSome then msg ++ ['<'] ++ va.text ++ ['>']
          else msg ++ va.text)
          ++ (if 0 < rest.length then [','] else []) ++ [' ']
      else msg)

/-- The conversion `%ld` of a position. -/
def decimal (n : Nat) : List Char :=
  Nat.toDigits 10 n

/-- The function `_expect_msg(ac, all, ...)` on the `ac` terminals `ts`: the globals with
the message in `uumsg`, `none` when the message does not fit the `MAX_UUMSG` characters
of `uumsg` (the `sprintf` calls would write past it). -/
def _expect_msg (all : Bool) (ts : List Term) (s : State) : Option State :=
  let msg1 := expectLoop s.argfail ts 0
    ("expected ".toList ++
      (if (s.argfail : Int) < (ts.length : Int) - 1 && !all then "one of: ".toList else []))
  let msg2 := if 0 < s.lpfail then msg1 ++ "at position ".toList ++ decimal (1 + s.lpfail)
    else msg1
  if MAX_UUMSG ≤ msg2.length then none else some { s with uumsg := String.mk msg2 }

/-- The body of the macros `expect(...)` (`all = false`) and `expectall(...)`
(`all = true`): when `_match` returns 0, `_expect_msg` builds the message and control
leaves through `_do_errjmp`. -/
def strict (all : Bool) (ts : List Term) (s : State) : Outcome :=
  match _match all ts s with
  | .ret r s1 =>
    if r = 0 then
      match _expect_msg all ts s1 with
      | some s2 => .fatal s2
      | none => .undefined
    else .ret r s1
  | o => o

/-- The macro `expect(...)`. -/
def expect (ts : List Term) (s : State) : Outcome :=
  strict false ts s

/-- The macro `expectall(...)`. -/
def expectall (ts : List Term) (s : State) : Outcome :=
  strict true ts s

/-- The macro `accept(...)`. -/
def accept (ts : List Term) (s : State) : Outcome :=
  _match false ts s

/-- The macro `acceptall(...)`. -/
def acceptall (ts : List Term) (s : State) : Outcome :=
  _match true ts s

/-! ## Further notions used in the statements -/

/-- A text with its leading and trailing whitespace removed. -/
def trim (l : List Char) : List Char :=
  ((l.dropWhile isspace).reverse.dropWhile isspace).reverse

/-- A terminal as a message shows it: the name of a built-in between `<` and `>`, the
bare text of a literal. -/
def render (t : Term) : List Char :=
  match t with
  | .lit cp => cp
  | b => ['<'] ++ b.text ++ ['>']

/-- Terminals as a message lists them: separated by a comma and a blank, with a blank
after the last. -/
def renderList : List Term → List Char
  | [] => []
  | [t] => render t ++ [' ']
  | t :: u :: rest => render t ++ [',', ' '] ++ renderList (u :: rest)

/-- The diagnostic message for a failed call on the terminals `ts` with the failure
record `argfail`, `lpfail`: "expected ", then "one of: " for an `Any` call on more than
one terminal, then the terminals from the failing index onward, then the 1-based column
of the failure position when that position is past the start of the line. -/
def expectedMsg (all : Bool) (ts : List Term) (argfail lpfail : Nat) : List Char :=
  "expected ".toList ++ (if all = false ∧ 1 < ts.length then "one of: ".toList else [])
    ++ renderList (ts.drop argfail)
    ++ (if 0 < lpfail then "at position ".toList ++ decimal (lpfail + 1) else [])

/-- Where the text matched by the terminal `t` begins, `p` being the whitespace-skipped
position of the attempt: after the opening quote for a quoted string, at `p` otherwise. -/
def slotStart (t : Term) (p : Nat) : Nat :=
  if t = Term.string then p + 1 else p

/-- The number of characters of the line the terminal `t` matched, the attempt having
started at the whitespace-skipped position `p` and left the scan at `q`: the characters
between the quotes for a quoted string, those from `p` to `q` otherwise. -/
def matchedLen (t : Term) (p q : Nat) : Nat :=
  if t = Term.string then q - p - 2 else q - p

/-- Two ways a call can end that agree on everything but `argmatch` and the failure
record (`argfail`, `lpfail`): the same return value with the same cursor, line, capture
slots and message; or the same fatal condition with the same globals; or both
undefined. -/
def agreeUpToRecord : Outcome → Outcome → Prop
  | .ret r1 s1, .ret r2 s2 =>
    r1 = r2 ∧ s1.uulp = s2.uulp ∧ s1.uuline = s2.uuline ∧ s1.arg = s2.arg ∧
      s1.uumsg = s2.uumsg
  | .fatal s1, .fatal s2 => s1 = s2
  | .undefined, .undefined => True
  | _, _ => False

/-! ## The characters the literal branch reads (lines 206-219) -/

/-- A character the literal branch reads: `cp[k]` of the literal, or the character at
offset `k` from `uuline`. -/
inductive Read where
  | lit (k : Int)
  | line (k : Int)
  deriving DecidableEq

/-- The characters `strncmp(cp, lp, n)` reads once it has compared `k` characters, `n`
more being allowed: `cp[k]` and `lp[k]`, then the following ones unless these two differ
or are the terminator. -/
def strncmpReads (cp line : List Char) (lp : Nat) : Nat → Nat → List Read
  | _, 0 => []
  | k, n + 1 =>
    Read.lit (k : Int) :: Read.line ((lp + k : Nat) : Int) ::
      (if charAt cp k ≠ charAt line (lp + k) then []
        else if charAt cp k = '\x00' then []
        else strncmpReads cp line lp (k + 1) n)

/-- The characters the literal branch reads for the literal `cp`, with the local `lp` and
the global cursor `uulp`, in the order of the source: those of `strncmp(cp, lp, l)`, then
`cp[l-1]` and `lp[l]`, or `cp[l-1]` a second time and `uulp[l]`. The scan of `strlen`,
which defines `l` and ends on the terminator `cp[l]`, is not listed. After a read of
`cp[-1]` the list stops: the value read there is outside the literal. -/
def literalReads (line : List Char) (uulp : Nat) (cp : List Char) (lp : Nat) : List Read :=
  strncmpReads cp line lp 0 (strlen cp) ++
    (if strncmp cp (line.drop lp) (strlen cp) = 0 then
      Read.lit ((strlen cp : Int) - 1) ::
        (if strlen cp = 0 then []
          else if isalpha (charAt cp (strlen cp - 1)) then
            [Read.line ((lp + strlen cp : Nat) : Int)]
          else
            Read.lit ((strlen cp : Int) - 1) ::
              (if isdigit (charAt cp (strlen cp - 1)) then
                [Read.line ((uulp + strlen cp : Nat) : Int)]
              else []))
    else [])

/-- A read that stays inside the strings: an index `0..len-1` of the literal, a position
of the line up to and including its terminator. -/
def Read.inBounds (line cp : List Char) : Read → Bool
  | .lit k => decide (0 ≤ k ∧ k < (cp.length : Int))
  | .line k => decide (0 ≤ k ∧ k ≤ (line.length : Int))

/-! ## General lemmas on the dispatch and the loop -/

theorem dispatch_verdict (line : List Char) (uulp : Nat) (t : Term) (lp : Nat)
    (a b : uuargval) :
    (dispatch line uulp t lp a).verdict = (dispatch line uulp t lp b).verdict := by
  cases t <;> simp only [dispatch] <;> (repeat' split) <;> simp_all [Step.verdict]

theorem dispatch_attempt (line : List Char) (uulp : Nat) (t : Term) (lp : Nat)
    (a : uuargval) :
    (dispatch line uulp t (skipws line lp) a).verdict = attempt line uulp t lp :=
  dispatch_verdict line uulp t (skipws line lp) a _

theorem verdict_matched {st : Step} {q : Nat} (h : st.verdict = .matched q) :
    ∃ a, st = .matched q a := by
  cases st <;> simp_all [Step.verdict]

theorem verdict_no_match {st : Step} {q : Nat} (h : st.verdict = .no_match q) :
    ∃ a, st = .no_match q a := by
  cases st <;> simp_all [Step.verdict]

theorem verdict_error {st : Step} {m : String} (h : st.verdict = .error m) :
    ∃ a, st = .error m a := by
  cases st <;> simp_all [Step.verdict]

theorem isNoMatch_iff {v : Verdict} : v.isNoMatch = true ↔ ∃ q, v = .no_match q := by
  cases v <;> simp [Verdict.isNoMatch]

theorem isMatched_iff {v : Verdict} : v.isMatched = true ↔ ∃ q, v = .matched q := by
  cases v <;> simp [Verdict.isMatched]

theorem verdict_undefined {st : Step} (h : st.verdict = .undefined) :
    st = .undefined := by
  cases st <;> simp_all [Step.verdict]

/-- One iteration of the loop when the terminal matches. -/
theorem matchLoop_matched (all : Bool) (resetlp : Nat) (t : Term) (rest : List Term)
    (i lp : Nat) (s : State) {q : Nat} (hi : i < UUMAX_ARGS)
    (h : attempt s.uuline s.uulp t lp = .matched q) :
    ∃ a, matchLoop all resetlp (t :: rest) i lp s =
      if all then
        matchLoop all resetlp rest (i + 1) (skipws s.uuline q) { s with arg := setArg s.arg i a }
      else
        .ret 1 { s with arg := setArg s.arg i a, uulp := skipws s.uuline q, argmatch := i } := by
  obtain ⟨a, ha⟩ := verdict_matched
    ((dispatch_attempt s.uuline s.uulp t lp
      { (s.arg i) with term := some t, len := 0, lp := skipws s.uuline lp }).trans h)
  refine ⟨a, ?_⟩
  rw [matchLoop, if_neg (by omega)]
  simp only [ha]

/-- One iteration of the loop when the terminal does not match. -/
theorem matchLoop_no_match (all : Bool) (resetlp : Nat) (t : Term) (rest : List Term)
    (i lp : Nat) (s : State) {q : Nat} (hi : i < UUMAX_ARGS)
    (h : attempt s.uuline s.uulp t lp = .no_match q) :
    ∃ a, matchLoop all resetlp (t :: rest) i lp s =
      if all then
        .ret 0 { s with arg := setArg s.arg i a, argfail := i, lpfail := q, uulp := resetlp }
      else
        matchLoop all resetlp rest (i + 1) s.uulp { s with arg := setArg s.arg i a } := by
  obtain ⟨a, ha⟩ := verdict_no_match
    ((dispatch_attempt s.uuline s.uulp t lp
      { (s.arg i) with term := some t, len := 0, lp := skipws s.uuline lp }).trans h)
  refine ⟨a, ?_⟩
  rw [matchLoop, if_neg (by omega)]
  simp only [ha]

/-- One iteration of the loop when the terminal calls `uuerror`. -/
theorem matchLoop_error (all : Bool) (resetlp : Nat) (t : Term) (rest : List Term)
    (i lp : Nat) (s : State) {m : String} (hi : i < UUMAX_ARGS)
    (h : attempt s.uuline s.uulp t lp = .error m) :
    ∃ a, matchLoop all resetlp (t :: rest) i lp s =
      .fatal { s with arg := setArg s.arg i a, uumsg := m } := by
  obtain ⟨a, ha⟩ := verdict_error
    ((dispatch_attempt s.uuline s.uulp t lp
      { (s.arg i) with term := some t, len := 0, lp := skipws s.uuline lp }).trans h)
  refine ⟨a, ?_⟩
  rw [matchLoop, if_neg (by omega)]
  simp only [ha]

/-- One iteration of the loop when the dispatch is undefined. -/
theorem matchLoop_undefined {all : Bool} {resetlp : Nat} {t : Term} {rest : List Term}
    {i lp : Nat} {s : State}
    (h : attempt s.uuline s.uulp t lp = .undefined) :
    matchLoop all resetlp (t :: rest) i lp s = .undefined := by
  have ha := verdict_undefined
    ((dispatch_attempt s.uuline s.uulp t lp
      { (s.arg i) with term := some t, len := 0, lp := skipws s.uuline lp }).trans h)
  rw [matchLoop]
  split
  · rfl
  · simp only [ha]

/-! ## C1: `Any` mode, total failure -/

theorem any_loop_total_failure (resetlp : Nat) (ts : List Term) :
    ∀ (i : Nat) (s : State), i + ts.length ≤ UUMAX_ARGS →
      (∀ t ∈ ts, (attempt s.uuline s.uulp t s.uulp).isNoMatch = true) →
      ∃ s', matchLoop false resetlp ts i s.uulp s = .ret 0 s' ∧ s'.uulp = resetlp ∧
        s'.argfail = 0 ∧ s'.lpfail = s.lpfail ∧ s'.argmatch = s.argmatch ∧
        s'.uuline = s.uuline := by
  induction ts with
  | nil => intro i s _ _; exact ⟨_, rfl, rfl, rfl, rfl, rfl, rfl⟩
  | cons t rest ih =>
    intro i s hi hfail
    obtain ⟨q, hq⟩ := isNoMatch_iff.1 (hfail t (List.mem_cons_self _ _))
    have hi' : i < UUMAX_ARGS := by simp only [List.length_cons] at hi; omega
    obtain ⟨a, ha⟩ := matchLoop_no_match false resetlp _ rest _ _ _ hi' hq
    rw [ha]
    simp only [Bool.false_eq_true, if_false]
    have := ih (i + 1) { s with arg := setArg s.arg i a }
      (by simp only [List.length_cons] at hi; omega)
      (fun t ht => hfail t (List.mem_cons_of_mem _ ht))
    exact this

/-- C1. `Any` mode, total failure: for a call `_match(0, ...)` on a non-empty list of at
most `UUMAX_ARGS` built-in or literal terminals, if every terminal tried at the cursor
ends in an ordinary no-match (none matches, none calls `uuerror`), then the call returns
0, the cursor `uulp` is what it was before the call, `argfail` is 0 and `lpfail` is the
pre-call cursor. -/
theorem any_total_failure (s : State) (ts : List Term) (hne : ts ≠ [])
    (hcap : ts.length ≤ UUMAX_ARGS)
    (hfail : ∀ t ∈ ts, (attempt s.uuline s.uulp t s.uulp).isNoMatch = true) :
    ∃ s', _match false ts s = .ret 0 s' ∧ s'.uulp = s.uulp ∧ s'.argfail = 0 ∧
      s'.lpfail = s.uulp := by
  have _ := hne
  obtain ⟨s', h, h1, h2, h3, _, _⟩ :=
    any_loop_total_failure s.uulp ts 0 { s with argmatch := -1, lpfail := s.uulp }
      (by omega) hfail
  exact ⟨s', h, h1, h2, h3⟩

/-- C1 at a concrete input: `accept(ident, integer, "match1", eol)` on `".;+"`. -/
theorem any_total_failure_witness :
    [Term.ident, Term.integer, Term.lit "match1".toList, Term.eol] ≠ [] ∧
    ∃ s', _match false [Term.ident, Term.integer, Term.lit "match1".toList, Term.eol]
        { start ".;+".toList with uulp := 1, argfail := 7, lpfail := 2 } = .ret 0 s' ∧
      s'.uulp = 1 ∧ s'.argfail = 0 ∧ s'.lpfail = 1 :=
  ⟨by decide,
   any_total_failure { start ".;+".toList with uulp := 1, argfail := 7, lpfail := 2 }
    [Term.ident, Term.integer, Term.lit "match1".toList, Term.eol] (by decide) (by decide)
    (by decide)⟩

/-! ## C2: `All` mode, failure -/

theorem strchr_isSome (s : List Char) (c : Char) (hc : c ≠ '\x00') :
    (strchr s c).isSome = s.contains c := by
  unfold strchr
  rw [if_neg hc]
  by_cases hm : c ∈ s
  · rw [if_pos (List.indexOf_lt_length.2 hm)]
    simp [hm]
  · rw [if_neg (fun h => hm (List.indexOf_lt_length.1 h))]
    simp [hm]

theorem identwcLoop_fst (l : List Char) : ∀ w, (identwcLoop w l).1 = wcRun l := by
  induction l with
  | nil => intro w; rfl
  | cons c cs ih =>
    intro w
    by_cases hc : c = '\x00'
    · subst hc
      simp [identwcLoop, wcRun, isWcChar, List.takeWhile]
    · have hs := strchr_isSome wc_all c hc
      by_cases hw : isWcChar c = true
      · have hcond : (c ≠ '\x00' && (isalnum c || c = '_' || (strchr wc_all c).isSome)) = true := by
          simp only [isWcChar, bne_iff_ne, ne_eq, Bool.and_eq_true, Bool.or_eq_true,
            beq_iff_eq, decide_eq_true_eq] at hw ⊢
          rw [hs]
          simpa using hw
        rw [identwcLoop, if_pos hcond]
        simp only [wcRun, List.takeWhile, hw, List.length_cons] at ih ⊢
        rw [ih]
      · have hcond : ¬ (c ≠ '\x00' && (isalnum c || c = '_' || (strchr wc_all c).isSome)) = true := by
          intro h
          apply hw
          simp only [isWcChar, bne_iff_ne, ne_eq, Bool.and_eq_true, Bool.or_eq_true,
            beq_iff_eq, decide_eq_true_eq] at h ⊢
          rw [hs] at h
          simpa using h
        rw [identwcLoop, if_neg hcond]
        simp [wcRun, List.takeWhile, hw]

theorem wcBody_some {w : Option Nat} (hw : w ≠ none) (c : Char) : wcBody w c = w := by
  simp [wcBody, hw]

theorem identwcLoop_snd_some (l : List Char) :
    ∀ w, w ≠ none → (identwcLoop w l).2 = w := by
  induction l with
  | nil => intro w _; rfl
  | cons c cs ih =>
    intro w hw
    rw [identwcLoop]
    split
    · simp only [wcBody_some hw]
      exact ih w hw
    · rfl

theorem isalpha_ne_nul {c : Char} (h : isalpha c = true ∨ c = '_') : c ≠ '\x00' := by
  rintro rfl
  rcases h with h | h
  · exact absurd h (by decide)
  · exact absurd h (by decide)

/-- The wildcard-identifier branch when the text starts with a letter or an underscore. -/
theorem attempt_identwc_alpha {line : List Char} (uulp : Nat) {p : Nat}
    (hc : isalpha (charAt line (skipws line p)) = true ∨ charAt line (skipws line p) = '_') :
    attempt line uulp Term.identwc p =
      if (identwcLoop (strchr wc_flag (charAt line (skipws line p)))
            (line.drop (skipws line p + 1))).2 = none
      then .no_match (skipws line p + 1 + wcRun (line.drop (skipws line p + 1)))
      else .matched (skipws line p + 1 + wcRun (line.drop (skipws line p + 1))) := by
  have hn := isalpha_ne_nul hc
  have hb : (isalpha (charAt line (skipws line p)) || decide (charAt line (skipws line p) = '_')) = true := by
    simpa using hc
  simp only [attempt, dispatch, hb, Bool.true_or, Bool.and_true, decide_eq_true_eq, ne_eq, hn,
    not_false_eq_true, if_true, wcBody, identwcLoop_fst]
  split <;> rfl

/-- The wildcard-identifier branch when the text starts with one of `? * [`. -/
theorem attempt_identwc_flag {line : List Char} (uulp : Nat) {p : Nat}
    (hn : charAt line (skipws line p) ≠ '\x00')
    (hc : ¬ (isalpha (charAt line (skipws line p)) = true ∨ charAt line (skipws line p) = '_'))
    (hf : (strchr wc_flag (charAt line (skipws line p))).isSome = true) :
    attempt line uulp Term.identwc p =
      .matched (skipws line p + 1 + wcRun (line.drop (skipws line p + 1))) := by
  have hb : (isalpha (charAt line (skipws line p)) || decide (charAt line (skipws line p) = '_')) = false := by
    simpa using hc
  have hsome : strchr wc_flag (charAt line (skipws line p)) ≠ none := by
    intro h0; rw [h0] at hf; simp at hf
  have h2 : (identwcLoop (strchr wc_flag (charAt line (skipws line p)))
      (line.drop (skipws line p + 1))).2 ≠ none := by
    rw [identwcLoop_snd_some _ _ hsome]; exact hsome
  simp only [attempt, dispatch, hb, hf, Bool.false_or, Bool.and_true, decide_eq_true_eq, ne_eq, hn,
    not_false_eq_true, if_true, wcBody_some hsome, identwcLoop_fst, Bool.false_eq_true, if_false, h2]
  rfl

/-- The wildcard-identifier branch on any other text. -/
theorem attempt_identwc_other {line : List Char} (uulp : Nat) {p : Nat}
    (hc : ¬ (isalpha (charAt line (skipws line p)) = true ∨ charAt line (skipws line p) = '_'))
    (hf : charAt line (skipws line p) = '\x00' ∨
      (strchr wc_flag (charAt line (skipws line p))).isSome = false) :
    attempt line uulp Term.identwc p = .no_match (skipws line p) := by
  have hb : (isalpha (charAt line (skipws line p)) || decide (charAt line (skipws line p) = '_')) = false := by
    simpa using hc
  rcases hf with hf | hf
  · simp [attempt, dispatch, hf, Step.verdict]
  · simp [attempt, dispatch, hb, hf, Step.verdict]

/-- Where an ordinary no-match leaves the local `lp`: at the whitespace-skipped start of
the attempt, except for `identwc` rejecting a run that starts with a letter or an
underscore, where it is just past that run. -/
theorem attempt_no_match_pos {line : List Char} {uulp : Nat} {t : Term} {p q : Nat}
    (h : attempt line uulp t p = .no_match q) :
    q = if t = Term.identwc ∧
          (isalpha (charAt line (skipws line p)) = true ∨ charAt line (skipws line p) = '_')
        then skipws line p + 1 + wcRun (line.drop (skipws line p + 1))
        else skipws line p := by
  cases t with
  | identwc =>
    by_cases hc : isalpha (charAt line (skipws line p)) = true ∨ charAt line (skipws line p) = '_'
    · rw [if_pos ⟨rfl, hc⟩]
      rw [attempt_identwc_alpha uulp hc] at h
      split at h
      · exact (Verdict.no_match.inj h).symm
      · exact absurd h (by simp)
    · rw [if_neg (fun hh => hc hh.2)]
      by_cases hn : charAt line (skipws line p) = '\x00'
      · rw [attempt_identwc_other uulp hc (Or.inl hn)] at h
        exact (Verdict.no_match.inj h).symm
      · cases hf : (strchr wc_flag (charAt line (skipws line p))).isSome
        · rw [attempt_identwc_other uulp hc (Or.inr hf)] at h
          exact (Verdict.no_match.inj h).symm
        · rw [attempt_identwc_flag uulp hn hc hf] at h
          exact absurd h (by simp)
  | eol =>
    simp only [attempt, dispatch] at h
    split at h <;> simp_all [Step.verdict]
  | string =>
    simp only [attempt, dispatch] at h
    (repeat' split at h) <;> simp_all [Step.verdict]
  | ident =>
    simp only [attempt, dispatch] at h
    (repeat' split at h) <;> simp_all [Step.verdict]
  | integer =>
    simp only [attempt, dispatch] at h
    (repeat' split at h) <;> simp_all [Step.verdict]
  | word =>
    simp only [attempt, dispatch] at h
    (repeat' split at h) <;> simp_all [Step.verdict]
  | lit cp =>
    simp only [attempt, dispatch] at h
    (repeat' split at h) <;> simp_all [Step.verdict]

theorem runAll_append (line : List Char) (uulp : Nat) (xs ys : List Term) :
    ∀ lp, runAll line uulp (xs ++ ys) lp = (runAll line uulp xs lp).bind (runAll line uulp ys) := by
  induction xs with
  | nil => intro lp; rfl
  | cons t rest ih =>
    intro lp
    simp only [List.cons_append, runAll]
    cases attempt line uulp t lp <;> simp [ih]

/-- A sequence that matches up to index `k` does not fail at an earlier index. -/
theorem not_failsAt_of_runAll {line : List Char} {uulp : Nat} {ts : List Term} {lp k p : Nat}
    (h : runAll line uulp (ts.take k) lp = some p) (j : Nat) (hj : j < k) :
    ¬ failsAt line uulp ts lp j := by
  rintro ⟨p', t, hp', ht, hm⟩
  have hjl : j < ts.length := by
    rcases List.getElem?_eq_some.1 ht with ⟨hl, _⟩; exact hl
  have htake : ts.take k = ts.take j ++ (t :: (ts.take k).drop (j + 1)) := by
    have h1 : (ts.take k).take j = ts.take j := by
      rw [List.take_take]; congr 1; omega
    have h2 : (ts.take k)[j]? = some t := by
      rw [List.getElem?_take_of_lt hj]; exact ht
    have h3 : j < (ts.take k).length := by
      rw [List.length_take]; omega
    have h4 : (ts.take k)[j] = t := by
      rw [List.getElem?_eq_getElem h3] at h2; exact Option.some.inj h2
    calc ts.take k = (ts.take k).take j ++ (ts.take k).drop j := (List.take_append_drop j _).symm
      _ = ts.take j ++ (ts.take k).drop j := by rw [h1]
      _ = ts.take j ++ (t :: (ts.take k).drop (j + 1)) := by
          rw [← h4, List.drop_eq_getElem_cons h3]
  rw [htake, runAll_append, hp'] at h
  simp only [Option.some_bind, runAll] at h
  cases hv : attempt line uulp t p' with
  | matched q => rw [hv] at hm; simp [Verdict.isMatched] at hm
  | no_match q => rw [hv] at h; simp at h
  | error m => rw [hv] at h; simp at h
  | undefined => rw [hv] at h; simp at h

theorem all_loop_failure (resetlp : Nat) (ts : List Term) :
    ∀ (i lp : Nat) (s s' : State), matchLoop true resetlp ts i lp s = .ret 0 s' →
      s'.uulp = resetlp ∧
      ∃ k p t, s'.argfail = i + k ∧ runAll s.uuline s.uulp (ts.take k) lp = some p ∧
        ts[k]? = some t ∧ attempt s.uuline s.uulp t p = .no_match s'.lpfail := by
  induction ts with
  | nil =>
    intro i lp s s' h
    simp [matchLoop] at h
  | cons t rest ih =>
    intro i lp s s' h
    by_cases hi : UUMAX_ARGS ≤ i
    · rw [matchLoop, if_pos hi] at h; exact absurd h (by simp)
    · have hi' : i < UUMAX_ARGS := by omega
      cases hv : attempt s.uuline s.uulp t lp with
      | matched q =>
        obtain ⟨a, ha⟩ := matchLoop_matched true resetlp _ rest _ _ _ hi' hv
        rw [ha, if_pos rfl] at h
        obtain ⟨h1, k, p, t', hk, hrun, ht', hatt⟩ := ih _ _ _ _ h
        refine ⟨h1, k + 1, p, t', by omega, ?_, by simpa using ht', hatt⟩
        simp only [List.take_succ_cons, runAll, hv]
        exact hrun
      | no_match q =>
        obtain ⟨a, ha⟩ := matchLoop_no_match true resetlp _ rest _ _ _ hi' hv
        rw [ha, if_pos rfl] at h
        have hs := (Outcome.ret.inj h).2
        subst hs
        exact ⟨rfl, 0, lp, t, rfl, rfl, by simp, hv⟩
      | error m =>
        obtain ⟨a, ha⟩ := matchLoop_error true resetlp _ rest _ _ _ hi' hv
        rw [ha] at h; exact absurd h (by simp)
      | undefined =>
        rw [matchLoop_undefined hv] at h; exact absurd h (by simp)

/-- C2 (as amended). `All` mode, failure: if `_match(1, ...)` returns 0 then the cursor
`uulp` equals its pre-call value, `argfail` is the least index `i` such that terminals
`0..i-1` matched in sequence and terminal `i` did not, and `lpfail` is the
whitespace-skipped position at which terminal `i` was attempted, except when terminal `i`
is `identwc` and the text there starts with a letter or an underscore: then `lpfail` is
the position just past the run of identifier and glob characters that starts there. -/
theorem all_failure (s s' : State) (ts : List Term)
    (h : _match true ts s = .ret 0 s') :
    s'.uulp = s.uulp ∧
    failsAt s.uuline s.uulp ts s.uulp s'.argfail ∧
    (∀ j, j < s'.argfail → ¬ failsAt s.uuline s.uulp ts s.uulp j) ∧
    ∃ p t, runAll s.uuline s.uulp (ts.take s'.argfail) s.uulp = some p ∧
      ts[s'.argfail]? = some t ∧
      s'.lpfail =
        if t = Term.identwc ∧ (isalpha (charAt s.uuline (skipws s.uuline p)) = true ∨
            charAt s.uuline (skipws s.uuline p) = '_')
        then skipws s.uuline p + 1 + wcRun (s.uuline.drop (skipws s.uuline p + 1))
        else skipws s.uuline p := by
  obtain ⟨h1, k, p, t, hk, hrun, ht, hatt⟩ := all_loop_failure _ _ _ _ _ _ h
  simp only [Nat.zero_add] at hk
  rw [hk]
  refine ⟨h1, ⟨p, t, hrun, ht, ?_⟩, fun j hj => not_failsAt_of_runAll hrun j hj,
    p, t, hrun, ht, attempt_no_match_pos hatt⟩
  rw [hatt]; rfl

/-- C2 as stated fails: `acceptall(identwc)` on `"ident"` returns 0 with `argfail = 0`;
terminal 0 was attempted at position 0 (there is no whitespace to skip), yet `lpfail`
is 5, the end of the line. -/
theorem all_failure_lpfail_counterexample :
    ∃ s', _match true [Term.identwc] (start "ident".toList) = .ret 0 s' ∧
      s'.argfail = 0 ∧ skipws "ident".toList 0 = 0 ∧ s'.lpfail = 5 ∧
      s'.lpfail ≠ skipws "ident".toList 0 :=
  ⟨_, rfl, by decide⟩

/-- C2 (as amended) at the scenario of the specification:
`[Identifier, "[", Integer, "]"]` against `"x[5"` fails at index 3 with `lpfail` at the
end of the input, and against `"x[5]"` it succeeds. -/
theorem all_failure_witness :
    ∃ s', _match true [Term.ident, Term.lit "[".toList, Term.integer, Term.lit "]".toList]
        (start "x[5".toList) = .ret 0 s' ∧
      s'.argfail = 3 ∧ s'.lpfail = 3 ∧ "x[5".toList.length = 3 ∧
      (s'.uulp = (start "x[5".toList).uulp ∧
       failsAt "x[5".toList 0 [Term.ident, Term.lit "[".toList, Term.integer, Term.lit "]".toList]
         0 s'.argfail) ∧
      ∃ s'', _match true [Term.ident, Term.lit "[".toList, Term.integer, Term.lit "]".toList]
        (start "x[5]".toList) = .ret 1 s'' ∧ s''.uulp = 4 :=
  ⟨_, rfl, by decide, by decide, by decide,
    ⟨(all_failure (start "x[5".toList) _
      [Term.ident, Term.lit "[".toList, Term.integer, Term.lit "]".toList] rfl).1,
     (all_failure (start "x[5".toList) _
      [Term.ident, Term.lit "[".toList, Term.integer, Term.lit "]".toList] rfl).2.1⟩,
    _, rfl, by decide⟩

/-! ## C3: `Any` mode, first success wins -/

theorem any_loop_success (resetlp : Nat) (ts : List Term) :
    ∀ (i : Nat) (s s' : State), matchLoop false resetlp ts i s.uulp s = .ret 1 s' →
      ∃ k t q, s'.argmatch = ((i + k : Nat) : Int) ∧ ts[k]? = some t ∧
        attempt s.uuline s.uulp t s.uulp = .matched q ∧
        (∀ j u, j < k → ts[j]? = some u → (attempt s.uuline s.uulp u s.uulp).isNoMatch = true) ∧
        s'.uulp = skipws s.uuline q ∧ ∀ j, i + k < j → s'.arg j = s.arg j := by
  induction ts with
  | nil =>
    intro i s s' h
    simp [matchLoop] at h
  | cons t rest ih =>
    intro i s s' h
    by_cases hi : UUMAX_ARGS ≤ i
    · rw [matchLoop, if_pos hi] at h; exact absurd h (by simp)
    · have hi' : i < UUMAX_ARGS := by omega
      cases hv : attempt s.uuline s.uulp t s.uulp with
      | matched q =>
        obtain ⟨a, ha⟩ := matchLoop_matched false resetlp _ rest _ _ _ hi' hv
        rw [ha, if_neg (by simp)] at h
        have hs := (Outcome.ret.inj h).2
        subst hs
        refine ⟨0, t, q, rfl, by simp, hv, fun j u hj => absurd hj (by omega), rfl, ?_⟩
        intro j hj
        simp only [setArg]
        rw [if_neg (by omega)]
      | no_match q =>
        obtain ⟨a, ha⟩ := matchLoop_no_match false resetlp _ rest _ _ _ hi' hv
        rw [ha, if_neg (by simp)] at h
        obtain ⟨k, t', q', hk, ht', hatt, hbefore, hcur, hslots⟩ :=
          ih (i + 1) { s with arg := setArg s.arg i a } s' h
        refine ⟨k + 1, t', q', ?_, by simpa using ht', hatt, ?_, hcur, ?_⟩
        · rw [hk]; congr 1; omega
        · intro j u hj hu
          cases j with
          | zero =>
            simp only [List.getElem?_cons_zero, Option.some.injEq] at hu
            subst hu
            rw [hv]; rfl
          | succ j =>
            simp only [List.getElem?_cons_succ] at hu
            exact hbefore j u (by omega) hu
        · intro j hj
          rw [hslots j (by omega)]
          simp only [setArg]
          rw [if_neg (by omega)]
      | error m =>
        obtain ⟨a, ha⟩ := matchLoop_error false resetlp _ rest _ _ _ hi' hv
        rw [ha] at h; exact absurd h (by simp)
      | undefined =>
        rw [matchLoop_undefined hv] at h; exact absurd h (by simp)

theorem any_loop_first (resetlp : Nat) (ts : List Term) :
    ∀ (i k : Nat) (s : State) (t : Term) (q : Nat), i + ts.length ≤ UUMAX_ARGS →
      ts[k]? = some t → attempt s.uuline s.uulp t s.uulp = .matched q →
      (∀ j u, j < k → ts[j]? = some u → (attempt s.uuline s.uulp u s.uulp).isNoMatch = true) →
      ∃ s', matchLoop false resetlp ts i s.uulp s = .ret 1 s' ∧
        s'.argmatch = ((i + k : Nat) : Int) := by
  induction ts with
  | nil => intro i k s t q _ ht; simp at ht
  | cons u rest ih =>
    intro i k s t q hi ht hv hbefore
    have hi' : i < UUMAX_ARGS := by simp only [List.length_cons] at hi; omega
    cases k with
    | zero =>
      simp only [List.getElem?_cons_zero, Option.some.injEq] at ht
      subst ht
      obtain ⟨a, ha⟩ := matchLoop_matched false resetlp _ rest _ _ _ hi' hv
      rw [ha, if_neg (by simp)]
      exact ⟨_, rfl, rfl⟩
    | succ k =>
      obtain ⟨q0, hq0⟩ := isNoMatch_iff.1 (hbefore 0 u (by omega) (by simp))
      obtain ⟨a, ha⟩ := matchLoop_no_match false resetlp _ rest _ _ _ hi' hq0
      rw [ha, if_neg (by simp)]
      simp only [List.getElem?_cons_succ] at ht
      obtain ⟨s', hs', hk⟩ := ih (i + 1) k { s with arg := setArg s.arg i a } t q
        (by simp only [List.length_cons] at hi; omega) ht hv
        (fun j w hj hw => hbefore (j + 1) w (by omega) (by simpa using hw))
      refine ⟨s', hs', ?_⟩
      rw [hk]; congr 1; omega

/-- C3. `Any` mode, first success wins: for a call `_match(0, ...)` on at most
`UUMAX_ARGS` built-in or literal terminals, the call returns 1 with `argmatch = k` exactly
when terminal `k` matches at the call's start cursor and every terminal `j < k` ends in an
ordinary no-match at that same cursor; the committed cursor is then the position just past
terminal `k`'s match and the whitespace that follows it, and the capture slots above `k`
are not written. -/
theorem any_first_success (s : State) (ts : List Term) (hcap : ts.length ≤ UUMAX_ARGS)
    (k : Nat) :
    ((∃ s', _match false ts s = .ret 1 s' ∧ s'.argmatch = (k : Int)) ↔
      ∃ t, ts[k]? = some t ∧ (attempt s.uuline s.uulp t s.uulp).isMatched = true ∧
        ∀ j u, j < k → ts[j]? = some u →
          (attempt s.uuline s.uulp u s.uulp).isNoMatch = true) ∧
    (∀ s', _match false ts s = .ret 1 s' → s'.argmatch = (k : Int) →
      ∃ t q, ts[k]? = some t ∧ attempt s.uuline s.uulp t s.uulp = .matched q ∧
        s'.uulp = skipws s.uuline q ∧ ∀ j, k < j → s'.arg j = s.arg j) := by
  have key : ∀ s', _match false ts s = .ret 1 s' → s'.argmatch = (k : Int) →
      ∃ t q, ts[k]? = some t ∧ attempt s.uuline s.uulp t s.uulp = .matched q ∧
        (∀ j u, j < k → ts[j]? = some u →
          (attempt s.uuline s.uulp u s.uulp).isNoMatch = true) ∧
        s'.uulp = skipws s.uuline q ∧ ∀ j, k < j → s'.arg j = s.arg j := by
    intro s' h hk
    obtain ⟨k', t, q, hk', ht, hv, hbefore, hcur, hslots⟩ :=
      any_loop_success s.uulp ts 0 { s with argmatch := -1, lpfail := s.uulp } s' h
    have hkk : k' = k := by
      rw [hk'] at hk
      have : ((0 + k' : Nat) : Int) = (k : Int) := hk
      omega
    subst hkk
    exact ⟨t, q, ht, hv, hbefore, hcur, fun j hj => hslots j (by omega)⟩
  refine ⟨⟨?_, ?_⟩, ?_⟩
  · rintro ⟨s', h, hk⟩
    obtain ⟨t, q, ht, hv, hbefore, _, _⟩ := key s' h hk
    exact ⟨t, ht, by rw [hv]; rfl, hbefore⟩
  · rintro ⟨t, ht, hm, hbefore⟩
    obtain ⟨q, hq⟩ := isMatched_iff.1 hm
    obtain ⟨s', hs', hk⟩ :=
      any_loop_first s.uulp ts 0 k { s with argmatch := -1, lpfail := s.uulp } t q
        (by omega) ht hq hbefore
    refine ⟨s', hs', ?_⟩
    rw [hk]; congr 1; omega
  · intro s' h hk
    obtain ⟨t, q, ht, hv, _, hcur, hslots⟩ := key s' h hk
    exact ⟨t, q, ht, hv, hcur, hslots⟩

/-- C3 at the scenario of the specification: `[Identifier, Literal "("]` against `"abc("`
gives `argmatch = 0`, slot 0 capturing `"abc"` (length 3), the cursor at `"("`, and slot 1
untouched. -/
theorem any_first_success_witness :
    [Term.ident, Term.lit "(".toList].length ≤ UUMAX_ARGS ∧
    ((∃ s', _match false [Term.ident, Term.lit "(".toList] (start "abc(".toList) = .ret 1 s' ∧
        s'.argmatch = ((0 : Nat) : Int)) ↔
      ∃ t, [Term.ident, Term.lit "(".toList][0]? = some t ∧
        (attempt "abc(".toList 0 t 0).isMatched = true ∧
        ∀ j u, j < 0 → [Term.ident, Term.lit "(".toList][j]? = some u →
          (attempt "abc(".toList 0 u 0).isNoMatch = true) ∧
    ∃ s', _match false [Term.ident, Term.lit "(".toList] (start "abc(".toList) = .ret 1 s' ∧
      s'.argmatch = 0 ∧ (s'.arg 0).lp = 0 ∧ (s'.arg 0).len = 3 ∧ s'.uulp = 3 ∧
      charAt "abc(".toList s'.uulp = '(' ∧ s'.arg 1 = (start "abc(".toList).arg 1 :=
  ⟨by decide,
   (any_first_success (start "abc(".toList) [Term.ident, Term.lit "(".toList] (by decide) 0).1,
   _, rfl, by decide⟩

/-! ## Calls on a single terminal -/

theorem match_single_no_match {s : State} {t : Term} {q : Nat} (all : Bool)
    (h : attempt s.uuline s.uulp t s.uulp = .no_match q) :
    ∃ s', _match all [t] s = .ret 0 s' ∧ s'.uulp = s.uulp ∧ s'.uuline = s.uuline := by
  obtain ⟨a, ha⟩ := matchLoop_no_match all s.uulp t [] 0 s.uulp
    { s with argmatch := -1, lpfail := s.uulp }
    (by decide) h
  unfold _match
  rw [ha]
  cases all
  · exact ⟨_, rfl, rfl, rfl⟩
  · exact ⟨_, rfl, rfl, rfl⟩

theorem match_single_matched {s : State} {t : Term} {q : Nat} (all : Bool)
    (h : attempt s.uuline s.uulp t s.uulp = .matched q) :
    ∃ s', _match all [t] s = .ret 1 s' ∧ s'.uulp = skipws s.uuline q ∧
      s'.uuline = s.uuline := by
  obtain ⟨a, ha⟩ := matchLoop_matched all s.uulp t [] 0 s.uulp
    { s with argmatch := -1, lpfail := s.uulp }
    (by decide) h
  unfold _match
  rw [ha]
  cases all
  · exact ⟨_, rfl, rfl, rfl⟩
  · exact ⟨_, rfl, rfl, rfl⟩

theorem match_single_error {s : State} {t : Term} {m : String} (all : Bool)
    (h : attempt s.uuline s.uulp t s.uulp = .error m) :
    ∃ s', _match all [t] s = .fatal s' ∧ s'.uumsg = m ∧ s'.uulp = s.uulp := by
  obtain ⟨a, ha⟩ := matchLoop_error all s.uulp t [] 0 s.uulp
    { s with argmatch := -1, lpfail := s.uulp }
    (by decide) h
  unfold _match
  rw [ha]
  exact ⟨_, rfl, rfl, rfl⟩

/-! ## C4: `All` mode against successive single calls -/

/-- C4, the code at the failing input: on the line `"a1"` the single call
`acceptall("a", "1")` returns 0 (terminal 1 is rejected, because the digit-boundary check
of the literal `"1"` reads `uulp[1]`, the `'1'` itself), while `acceptall("a")` followed by
`acceptall("1")` both return 1 and leave the cursor at the end of the line. -/
theorem all_sequencing_divergence :
    (∃ s', _match true [Term.lit "a".toList, Term.lit "1".toList] (start "a1".toList)
        = .ret 0 s' ∧ s'.argfail = 1 ∧ s'.uulp = 0) ∧
    (∃ s', seqCalls [Term.lit "a".toList, Term.lit "1".toList] (start "a1".toList)
        = .ret 1 s' ∧ s'.uulp = 2) :=
  ⟨⟨_, rfl, by decide⟩, ⟨_, rfl, by decide⟩⟩

/-! ## C5: the alphabetic boundary of a literal -/

theorem charAt_drop (line : List Char) (lp k : Nat) :
    charAt (line.drop lp) k = charAt line (lp + k) := by
  simp [charAt, List.getD_eq_getElem?_getD, List.getElem?_drop]

theorem charAt_append_length (xs : List Char) (c : Char) (ys : List Char) :
    charAt (xs ++ c :: ys) xs.length = c := by
  simp only [charAt, List.getD_eq_getElem?_getD]
  rw [List.getElem?_append_right (Nat.le_refl _)]
  simp

theorem charAt_getLast (L : List Char) (hL : L ≠ []) :
    charAt L (strlen L - 1) = L.getLast hL := by
  have hlen : 0 < L.length := List.length_pos.2 hL
  rw [List.getLast_eq_getElem]
  simp only [charAt, strlen, List.getD_eq_getElem?_getD]
  rw [List.getElem?_eq_getElem (by omega)]
  rfl

theorem strncmp_prefix (L : List Char) : ∀ rest : List Char,
    strncmp L (L ++ rest) L.length = 0 := by
  induction L with
  | nil => intro rest; rfl
  | cons x xs ih =>
    intro rest
    simp only [List.cons_append, List.length_cons, strncmp, charAt, List.getD_cons_zero,
      ne_eq, not_true_eq_false, if_false, List.tail_cons]
    split
    · rfl
    · exact ih rest

/-- The literal branch when the text is the literal followed by a letter. -/
theorem attempt_lit_alpha {line : List Char} (uulp : Nat) {p : Nat} {L : List Char} {c : Char}
    (hL : L ≠ []) (hlast : isalpha (L.getLast hL) = true)
    (htext : L ++ [c] <+: line.drop (skipws line p)) (hc : isalpha c = true) :
    attempt line uulp (Term.lit L) p = .no_match (skipws line p) := by
  obtain ⟨rest, hrest⟩ := htext
  have hcmp : strncmp L (line.drop (skipws line p)) (strlen L) = 0 := by
    rw [← hrest, List.append_assoc]; exact strncmp_prefix L _
  have hlen : strlen L ≠ 0 := by
    simp only [strlen]; exact fun h => hL (List.length_eq_zero.1 h)
  have hnext : charAt line (skipws line p + strlen L) = c := by
    rw [← charAt_drop, ← hrest, List.append_assoc]
    exact charAt_append_length L c rest
  simp only [attempt, dispatch, hcmp, if_true, hlen, if_false, charAt_getLast L hL, hlast,
    hnext, hc, Step.verdict]

/-- C5. Literal alphabetic boundary: for every literal `L` whose last character is
alphabetic and every line in which the text at the whitespace-skipped cursor is `L`
immediately followed by another alphabetic character `c`, matching `L` fails in both
modes (the call returns 0) and the cursor is unchanged. -/
theorem literal_alpha_boundary (s : State) (L : List Char) (c : Char) (all : Bool)
    (hL : L ≠ []) (hlast : isalpha (L.getLast hL) = true)
    (htext : L ++ [c] <+: s.uuline.drop (skipws s.uuline s.uulp))
    (hc : isalpha c = true) :
    ∃ s', _match all [Term.lit L] s = .ret 0 s' ∧ s'.uulp = s.uulp := by
  obtain ⟨s', h, hcur, _⟩ :=
    match_single_no_match all (attempt_lit_alpha s.uulp hL hlast htext hc)
  exact ⟨s', h, hcur⟩

/-- C5 at the example of the specification: the literal `"in"` against `"integer"` does
not match, in `Any` mode and in `All` mode. -/
theorem literal_alpha_boundary_witness :
    (∃ hL : "in".toList ≠ [], isalpha ("in".toList.getLast hL) = true) ∧
    "in".toList ++ ['t'] <+: "integer".toList.drop (skipws "integer".toList 0) ∧
    isalpha 't' = true ∧
    (∃ s', _match false [Term.lit "in".toList] (start "integer".toList) = .ret 0 s' ∧
      s'.uulp = (start "integer".toList).uulp) ∧
    (∃ s', _match true [Term.lit "in".toList] (start "integer".toList) = .ret 0 s' ∧
      s'.uulp = (start "integer".toList).uulp) :=
  ⟨⟨by decide, by decide⟩, ⟨"eger".toList, by decide⟩, by decide,
   literal_alpha_boundary (start "integer".toList) "in".toList 't' false (by decide) (by decide)
     ⟨"eger".toList, by decide⟩ (by decide),
   literal_alpha_boundary (start "integer".toList) "in".toList 't' true (by decide) (by decide)
     ⟨"eger".toList, by decide⟩ (by decide)⟩

/-! ## C6: the digit boundary of a literal -/

/-- C6, the code at the failing inputs. On `" 1"` the literal `"1"` stands at the
whitespace-skipped position 1 and nothing follows it, yet `accept("1")` and
`acceptall("1")` return 0: the check reads `uulp[1]`, the matched `'1'` itself. On
`"  12"` the literal `"1"` is followed by the digit `'2'`, yet the calls return 1 with the
cursor on that digit: the check reads `uulp[1]`, a blank. -/
theorem literal_digit_boundary_divergence :
    (skipws " 1".toList 0 = 1 ∧ isdigit (charAt " 1".toList (1 + 1)) = false ∧
      (∃ s', _match false [Term.lit "1".toList] (start " 1".toList) = .ret 0 s') ∧
      (∃ s', _match true [Term.lit "1".toList] (start " 1".toList) = .ret 0 s')) ∧
    (skipws "  12".toList 0 = 2 ∧ isdigit (charAt "  12".toList (2 + 1)) = true ∧
      (∃ s', _match false [Term.lit "1".toList] (start "  12".toList) = .ret 1 s' ∧
        s'.uulp = 3) ∧
      (∃ s', _match true [Term.lit "1".toList] (start "  12".toList) = .ret 1 s' ∧
        s'.uulp = 3)) :=
  ⟨⟨by decide, by decide, ⟨_, rfl⟩, ⟨_, rfl⟩⟩,
   ⟨by decide, by decide, ⟨_, rfl, by decide⟩, ⟨_, rfl, by decide⟩⟩⟩

/-! ## C7: integer overflow -/

theorem LONG_MAX_div : LONG_MAX / 10 = 922337203685477580 := by decide

theorem LONG_MAX_mod : LONG_MAX % 10 = 7 := by decide

theorem isdigit_iff {c : Char} : isdigit c = true ↔ 48 ≤ c.toNat ∧ c.toNat ≤ 57 := by
  simp [isdigit]

theorem isdigit_ne_nul {c : Char} (h : isdigit c = true) : c ≠ '\x00' := by
  rintro rfl; exact absurd h (by decide)

theorem foldl_digits_le (ds : List Char) : ∀ v : Nat,
    v ≤ ds.foldl (fun v c => 10 * v + (c.toNat - 48)) v := by
  induction ds with
  | nil => intro v; exact Nat.le_refl v
  | cons c cs ih =>
    intro v
    simp only [List.foldl_cons]
    exact Nat.le_trans (by omega) (ih _)

/-- The integer loop started with the value `v` on a text: it calls `uuerror` exactly when
the value of the digit run, continued from `v`, exceeds `LONG_MAX`; otherwise it ends with
that value after reading the whole run. -/
theorem integerLoop_eq (text : List Char) : ∀ v : Nat, (v : Int) ≤ LONG_MAX →
    integerLoop (v : Int) text =
      if (((digitRun text).foldl (fun v c => 10 * v + (c.toNat - 48)) v : Nat) : Int) ≤ LONG_MAX
      then some ((((digitRun text).foldl (fun v c => 10 * v + (c.toNat - 48)) v : Nat) : Int),
        (digitRun text).length)
      else none := by
  induction text with
  | nil =>
    intro v hv
    simp [integerLoop, digitRun, hv]
  | cons c cs ih =>
    intro v hv
    by_cases hd : isdigit c = true
    · have hn := isdigit_ne_nul hd
      obtain ⟨h48, h57⟩ := isdigit_iff.1 hd
      have hrun : digitRun (c :: cs) = c :: digitRun cs := by
        simp [digitRun, List.takeWhile, hd]
      have hcond : (decide (c ≠ '\x00') && isdigit c) = true := by simp [hn, hd]
      rw [integerLoop, if_pos hcond, hrun, List.foldl_cons, LONG_MAX_div, LONG_MAX_mod]
      have hcast : ((10 * v + (c.toNat - 48) : Nat) : Int) = (v : Int) * 10 + ((c.toNat : Int) - 48) := by
        omega
      by_cases hov : (10 * v + (c.toNat - 48) : Nat) ≤ 9223372036854775807
      · have hno : ¬ (decide ((v : Int) > 922337203685477580) ||
            ((v : Int) == 922337203685477580 && decide ((c.toNat : Int) - 48 > 7))) = true := by
          simp only [Bool.or_eq_true, decide_eq_true_eq, Bool.and_eq_true, beq_iff_eq]
          omega
        rw [if_neg hno, ← hcast, ih _ (by simp only [LONG_MAX]; omega)]
        by_cases hle : (((digitRun cs).foldl (fun v c => 10 * v + (c.toNat - 48))
            (10 * v + (c.toNat - 48)) : Nat) : Int) ≤ LONG_MAX
        · simp only [if_pos hle, List.length_cons]
        · simp only [if_neg hle]
      · have hyes : (decide ((v : Int) > 922337203685477580) ||
            ((v : Int) == 922337203685477580 && decide ((c.toNat : Int) - 48 > 7))) = true := by
          simp only [Bool.or_eq_true, decide_eq_true_eq, Bool.and_eq_true, beq_iff_eq]
          omega
        rw [if_pos hyes]
        have hge := foldl_digits_le (digitRun cs) (10 * v + (c.toNat - 48))
        rw [if_neg]
        simp only [LONG_MAX]
        omega
    · have hrun : digitRun (c :: cs) = [] := by
        simp [digitRun, List.takeWhile, hd]
      have hcond : ¬ (decide (c ≠ '\x00') && isdigit c) = true := by simp [hd]
      rw [integerLoop, if_neg hcond, hrun]
      simp [hv]

/-- The integer branch of the dispatch on a text that starts with a digit. -/
theorem dispatch_integer {line : List Char} (uulp : Nat) {lp : Nat} (a : uuargval)
    (hd : isdigit (charAt line lp) = true) :
    dispatch line uulp Term.integer lp a =
      if (decimalValue (digitRun (line.drop lp)) : Int) ≤ LONG_MAX
      then .matched (lp + (digitRun (line.drop lp)).length)
        { a with i := (decimalValue (digitRun (line.drop lp)) : Int) }
      else .error "integer overflow" a := by
  have h := integerLoop_eq (line.drop lp) 0 (by decide)
  rw [show ((0 : Nat) : Int) = 0 from rfl] at h
  unfold decimalValue
  simp only [dispatch, hd, if_true]
  rw [h]
  by_cases hle : (((digitRun (line.drop lp)).foldl (fun v c => 10 * v + (c.toNat - 48)) 0 : Nat) : Int)
      ≤ LONG_MAX
  · simp only [if_pos hle]
  · simp only [if_neg hle]

/-- The integer branch on a text that starts with a digit. -/
theorem attempt_integer {line : List Char} (uulp : Nat) {p : Nat}
    (hd : isdigit (charAt line (skipws line p)) = true) :
    attempt line uulp Term.integer p =
      if (decimalValue (digitRun (line.drop (skipws line p))) : Int) ≤ LONG_MAX
      then .matched (skipws line p + (digitRun (line.drop (skipws line p))).length)
      else .error "integer overflow" := by
  unfold attempt
  rw [dispatch_integer uulp _ hd]
  split <;> rfl

/-- C7. Integer overflow is fatal, exactly at the limit: on a line whose text at the
whitespace-skipped cursor starts with a digit, matching Integer (in either mode) calls
`uuerror("integer overflow")` if and only if the decimal value of the maximal digit run
exceeds `LONG_MAX`, and it never ends in an ordinary no-match (a return of 0). -/
theorem integer_overflow (s : State) (all : Bool)
    (hd : isdigit (charAt s.uuline (skipws s.uuline s.uulp)) = true) :
    ((∃ s', _match all [Term.integer] s = .fatal s' ∧ s'.uumsg = "integer overflow") ↔
      LONG_MAX < (decimalValue (digitRun (s.uuline.drop (skipws s.uuline s.uulp))) : Int)) ∧
    (∀ s', _match all [Term.integer] s ≠ .ret 0 s') := by
  have hatt := attempt_integer s.uulp hd
  by_cases hv : (decimalValue (digitRun (s.uuline.drop (skipws s.uuline s.uulp))) : Int) ≤ LONG_MAX
  · rw [if_pos hv] at hatt
    obtain ⟨s1, h1, _⟩ := match_single_matched all hatt
    refine ⟨⟨?_, fun h => absurd hv (not_le.2 h)⟩, ?_⟩
    · rintro ⟨s', h, _⟩; rw [h1] at h; exact absurd h (by simp)
    · intro s' h; rw [h1] at h; exact absurd h (by simp)
  · rw [if_neg hv] at hatt
    obtain ⟨s1, h1, hm, _⟩ := match_single_error all hatt
    refine ⟨⟨fun _ => not_le.1 hv, fun _ => ⟨s1, h1, hm⟩⟩, ?_⟩
    intro s' h; rw [h1] at h; exact absurd h (by simp)

/-- C7 at the inputs of the test table: `"9223372036854775808"` raises the overflow, in
both modes; `"9223372036854775807 LONG_MAX"` matches with the value
9223372036854775807. -/
theorem integer_overflow_witness :
    isdigit (charAt "9223372036854775808".toList (skipws "9223372036854775808".toList 0)) = true ∧
    LONG_MAX < (decimalValue (digitRun ("9223372036854775808".toList.drop
      (skipws "9223372036854775808".toList 0))) : Int) ∧
    (∃ s', _match false [Term.integer] (start "9223372036854775808".toList) = .fatal s' ∧
      s'.uumsg = "integer overflow") ∧
    (∃ s', _match true [Term.integer] (start "9223372036854775808".toList) = .fatal s' ∧
      s'.uumsg = "integer overflow") ∧
    (∃ s', _match false [Term.integer] (start "9223372036854775807 LONG_MAX".toList)
      = .ret 1 s' ∧ (s'.arg 0).i = 9223372036854775807) :=
  ⟨by decide, by decide,
   ((integer_overflow (start "9223372036854775808".toList) false (by decide)).1).2 (by decide),
   ((integer_overflow (start "9223372036854775808".toList) true (by decide)).1).2 (by decide),
   ⟨_, rfl, by decide⟩⟩

/-! ## C8: the value of an integer -/

theorem match_single_step_matched {s : State} {t : Term} {q : Nat} {a : uuargval}
    (all : Bool)
    (h : dispatch s.uuline s.uulp t (skipws s.uuline s.uulp)
      { (s.arg 0) with term := some t, len := 0, lp := skipws s.uuline s.uulp } = .matched q a) :
    ∃ s', _match all [t] s = .ret 1 s' ∧ s'.uulp = skipws s.uuline q ∧ s'.arg 0 = a := by
  unfold _match
  rw [matchLoop, if_neg (by decide)]
  simp only [h]
  cases all
  · exact ⟨_, rfl, rfl, by simp [setArg]⟩
  · exact ⟨_, rfl, rfl, by simp [setArg]⟩

theorem attempt_integer_nondigit {line : List Char} (uulp : Nat) {p : Nat}
    (hd : isdigit (charAt line (skipws line p)) = false) :
    attempt line uulp Term.integer p = .no_match (skipws line p) := by
  simp [attempt, dispatch, hd, Step.verdict]

/-- C8. Integer value: on a line whose text at the whitespace-skipped cursor begins with
a maximal run of decimal digits of value `v ≤ LONG_MAX` (leading zeros allowed), matching
Integer succeeds in either mode, stores `v` in the slot's value `arg[0].i` and leaves the
cursor past exactly that digit run and the whitespace after it; if the first
non-whitespace character is not a digit the call ends in an ordinary no-match with the
cursor unchanged. At any index, the Integer branch of the dispatch stores `v` in the slot
it is given and moves `lp` past the run. -/
theorem integer_value (s : State) (all : Bool) :
    (isdigit (charAt s.uuline (skipws s.uuline s.uulp)) = true →
      (decimalValue (digitRun (s.uuline.drop (skipws s.uuline s.uulp))) : Int) ≤ LONG_MAX →
      ∃ s', _match all [Term.integer] s = .ret 1 s' ∧
        (s'.arg 0).i = (decimalValue (digitRun (s.uuline.drop (skipws s.uuline s.uulp))) : Int) ∧
        s'.uulp = skipws s.uuline
          (skipws s.uuline s.uulp + (digitRun (s.uuline.drop (skipws s.uuline s.uulp))).length)) ∧
    (isdigit (charAt s.uuline (skipws s.uuline s.uulp)) = false →
      ∃ s', _match all [Term.integer] s = .ret 0 s' ∧ s'.uulp = s.uulp) ∧
    (∀ (lp : Nat) (a : uuargval), isdigit (charAt s.uuline lp) = true →
      (decimalValue (digitRun (s.uuline.drop lp)) : Int) ≤ LONG_MAX →
      dispatch s.uuline s.uulp Term.integer lp a =
        .matched (lp + (digitRun (s.uuline.drop lp)).length)
          { a with i := (decimalValue (digitRun (s.uuline.drop lp)) : Int) }) := by
  refine ⟨?_, ?_, ?_⟩
  · intro hd hv
    have hstep := dispatch_integer s.uulp
      { (s.arg 0) with term := some Term.integer, len := 0, lp := skipws s.uuline s.uulp } hd
    rw [if_pos hv] at hstep
    obtain ⟨s', h, hcur, hslot⟩ := match_single_step_matched all hstep
    exact ⟨s', h, by rw [hslot], hcur⟩
  · intro hd
    obtain ⟨s', h, hcur, _⟩ := match_single_no_match all (attempt_integer_nondigit s.uulp hd)
    exact ⟨s', h, hcur⟩
  · intro lp a hd hv
    rw [dispatch_integer s.uulp a hd, if_pos hv]

/-- C8 at the scenario of the specification: on `"  42 "` Integer matches with value 42,
and `All` with `[Integer, EndOfInput]` succeeds with `arg[0].i = 42` and the cursor at the
end of the line; on `"x"` Integer is an ordinary no-match. -/
theorem integer_value_witness :
    isdigit (charAt "  42 ".toList (skipws "  42 ".toList 0)) = true ∧
    (decimalValue (digitRun ("  42 ".toList.drop (skipws "  42 ".toList 0))) : Int) = 42 ∧
    (∃ s', _match true [Term.integer] (start "  42 ".toList) = .ret 1 s' ∧
      (s'.arg 0).i = (decimalValue (digitRun ("  42 ".toList.drop (skipws "  42 ".toList 0))) : Int) ∧
      s'.uulp = skipws "  42 ".toList
        (skipws "  42 ".toList 0 + (digitRun ("  42 ".toList.drop (skipws "  42 ".toList 0))).length)) ∧
    (∃ s', _match true [Term.integer, Term.eol] (start "  42 ".toList) = .ret 1 s' ∧
      (s'.arg 0).i = 42 ∧ s'.uulp = 5 ∧ "  42 ".toList.length = 5) ∧
    isdigit (charAt "x".toList (skipws "x".toList 0)) = false ∧
    (∃ s', _match false [Term.integer] (start "x".toList) = .ret 0 s' ∧
      s'.uulp = (start "x".toList).uulp) :=
  ⟨by decide, by decide,
   (integer_value (start "  42 ".toList) true).1 (by decide) (by decide),
   ⟨_, rfl, by decide⟩,
   by decide,
   (integer_value (start "x".toList) false).2.1 (by decide)⟩

/-! ## C9: a plain identifier is not a wildcard identifier -/

theorem charAt_mem (line : List Char) (k : Nat) :
    charAt line k = '\x00' ∨ charAt line k ∈ line := by
  by_cases hk : k < line.length
  · right
    simp only [charAt, List.getD_eq_getElem?_getD, List.getElem?_eq_getElem hk, Option.getD_some]
    exact List.getElem_mem hk
  · left
    simp only [charAt, List.getD_eq_getElem?_getD]
    rw [List.getElem?_eq_none (by omega)]
    rfl

/-- A letter, digit, underscore or whitespace character is not one of `? * [`. -/
theorem plain_not_flag {c : Char}
    (h : isalnum c = true ∨ c = '_' ∨ isspace c = true) : strchr wc_flag c = none := by
  have hn : c ≠ '\x00' := by
    rintro rfl
    rcases h with h | h | h <;> exact absurd h (by decide)
  have hm : c ∉ wc_flag := by
    intro hm
    simp only [wc_flag, List.mem_cons, List.mem_singleton, List.not_mem_nil, or_false] at hm
    rcases hm with rfl | rfl | rfl <;> rcases h with h | h | h <;> exact absurd h (by decide)
  unfold strchr
  rw [if_neg hn, if_neg (fun hh => hm (List.indexOf_lt_length.1 hh))]

theorem identwcLoop_plain (l : List Char)
    (h : ∀ c ∈ l, isalnum c = true ∨ c = '_' ∨ isspace c = true) :
    (identwcLoop none l).2 = none := by
  induction l with
  | nil => rfl
  | cons c cs ih =>
    rw [identwcLoop]
    have hb : wcBody none c = none := by
      simp only [wcBody, if_true]
      exact plain_not_flag (h c (List.mem_cons_self _ _))
    split
    · simp only [hb]
      exact ih (fun d hd => h d (List.mem_cons_of_mem _ hd))
    · rfl

/-- The identifier branch on a text that starts with a letter or an underscore. -/
theorem attempt_ident {line : List Char} (uulp : Nat) {p : Nat}
    (hc : isalpha (charAt line (skipws line p)) = true ∨ charAt line (skipws line p) = '_') :
    attempt line uulp Term.ident p =
      .matched (skipws line p + 1 + identLoop (line.drop (skipws line p + 1))) := by
  have hb : (isalpha (charAt line (skipws line p)) || decide (charAt line (skipws line p) = '_')) = true := by
    simpa using hc
  simp only [attempt, dispatch, hb, if_true, Step.verdict]

/-- C9. IdentifierWithWildcard never claims a plain identifier: on a line that consists
only of letters, digits, underscores and whitespace, matching `identwc` (in either mode,
at any cursor) is an ordinary no-match with the cursor unchanged, while if the first
non-whitespace character is a letter or an underscore, matching Identifier on the same
line succeeds. -/
theorem identwc_rejects_plain (s : State) (all : Bool)
    (hline : ∀ c ∈ s.uuline, isalnum c = true ∨ c = '_' ∨ isspace c = true) :
    (∃ s', _match all [Term.identwc] s = .ret 0 s' ∧ s'.uulp = s.uulp) ∧
    (isalpha (charAt s.uuline (skipws s.uuline s.uulp)) = true ∨
        charAt s.uuline (skipws s.uuline s.uulp) = '_' →
      ∃ s', _match all [Term.ident] s = .ret 1 s') := by
  constructor
  · by_cases hc : isalpha (charAt s.uuline (skipws s.uuline s.uulp)) = true ∨
        charAt s.uuline (skipws s.uuline s.uulp) = '_'
    · have hatt := attempt_identwc_alpha s.uulp hc
      have hfirst : strchr wc_flag (charAt s.uuline (skipws s.uuline s.uulp)) = none := by
        rcases hc with h | h
        · exact plain_not_flag (Or.inl (by simp [isalnum, h]))
        · exact plain_not_flag (Or.inr (Or.inl h))
      rw [hfirst, if_pos (identwcLoop_plain _
        (fun c hcm => hline c (List.mem_of_mem_drop hcm)))] at hatt
      obtain ⟨s', h, hcur, _⟩ := match_single_no_match all hatt
      exact ⟨s', h, hcur⟩
    · have hother : charAt s.uuline (skipws s.uuline s.uulp) = '\x00' ∨
          (strchr wc_flag (charAt s.uuline (skipws s.uuline s.uulp))).isSome = false := by
        rcases charAt_mem s.uuline (skipws s.uuline s.uulp) with h | h
        · exact Or.inl h
        · right; rw [plain_not_flag (hline _ h)]; rfl
      obtain ⟨s', h, hcur, _⟩ :=
        match_single_no_match all (attempt_identwc_other s.uulp hc hother)
      exact ⟨s', h, hcur⟩
  · intro hc
    obtain ⟨s', h, _⟩ := match_single_matched all (attempt_ident s.uulp hc)
    exact ⟨s', h⟩

/-- C9 at the input of the test table: `"ident"` is rejected by `identwc` and accepted by
`ident`. -/
theorem identwc_rejects_plain_witness :
    (∀ c ∈ "ident".toList, isalnum c = true ∨ c = '_' ∨ isspace c = true) ∧
    (∃ s', _match false [Term.identwc] (start "ident".toList) = .ret 0 s' ∧
      s'.uulp = (start "ident".toList).uulp) ∧
    (∃ s', _match false [Term.ident] (start "ident".toList) = .ret 1 s') :=
  ⟨by decide,
   (identwc_rejects_plain (start "ident".toList) false (by decide)).1,
   (identwc_rejects_plain (start "ident".toList) false (by decide)).2 (by decide)⟩

/-! ## C10: the first character of a wildcard identifier -/

theorem strchr_isSome_false {s : List Char} {c : Char} (hc : c ∉ s) (hn : c ≠ '\x00') :
    (strchr s c).isSome = false := by
  rw [strchr_isSome s c hn]
  simpa using hc

/-- C10 as stated fails: on the test input `"*"`, whose first character is the glob
character `*`, `accept(identwc)` and `acceptall(identwc)` succeed, capturing the `*`. -/
theorem identwc_first_char_counterexample :
    charAt "*".toList (skipws "*".toList 0) = '*' ∧
    isalpha '*' = false ∧ '*' ≠ '_' ∧
    (∃ s', _match false [Term.identwc] (start "*".toList) = .ret 1 s' ∧
      (s'.arg 0).lp = 0 ∧ (s'.arg 0).len = 1 ∧ s'.uulp = 1) ∧
    (∃ s', _match true [Term.identwc] (start "*".toList) = .ret 1 s' ∧
      (s'.arg 0).lp = 0 ∧ (s'.arg 0).len = 1 ∧ s'.uulp = 1) :=
  ⟨by decide, by decide, by decide, ⟨_, rfl, by decide⟩, ⟨_, rfl, by decide⟩⟩

/-- C10 (as amended). Every successful `identwc` match begins with a letter, an
underscore or one of the flag characters `? * [` (the first-character test of the branch
admits them); so on a line whose first non-whitespace character is one of `! - ]`,
matching `identwc` does not succeed (it is an ordinary no-match with the cursor
unchanged), while on a line whose first non-whitespace character is one of `? * [` it
succeeds. -/
theorem identwc_first_char (s : State) (all : Bool) :
    (∀ s', _match all [Term.identwc] s = .ret 1 s' →
      isalpha (charAt s.uuline (skipws s.uuline s.uulp)) = true ∨
      charAt s.uuline (skipws s.uuline s.uulp) = '_' ∨
      charAt s.uuline (skipws s.uuline s.uulp) ∈ ['?', '*', '[']) ∧
    (charAt s.uuline (skipws s.uuline s.uulp) ∈ ['!', '-', ']'] →
      ∃ s', _match all [Term.identwc] s = .ret 0 s' ∧ s'.uulp = s.uulp) ∧
    (charAt s.uuline (skipws s.uuline s.uulp) ∈ ['?', '*', '['] →
      ∃ s', _match all [Term.identwc] s = .ret 1 s') := by
  have hno : ¬ (isalpha (charAt s.uuline (skipws s.uuline s.uulp)) = true ∨
        charAt s.uuline (skipws s.uuline s.uulp) = '_') →
      charAt s.uuline (skipws s.uuline s.uulp) ∉ wc_flag →
      ∃ s', _match all [Term.identwc] s = .ret 0 s' ∧ s'.uulp = s.uulp := by
    intro hc hf
    have hother : charAt s.uuline (skipws s.uuline s.uulp) = '\x00' ∨
        (strchr wc_flag (charAt s.uuline (skipws s.uuline s.uulp))).isSome = false := by
      by_cases hn : charAt s.uuline (skipws s.uuline s.uulp) = '\x00'
      · exact Or.inl hn
      · exact Or.inr (strchr_isSome_false hf hn)
    obtain ⟨s', h, hcur, _⟩ :=
      match_single_no_match all (attempt_identwc_other s.uulp hc hother)
    exact ⟨s', h, hcur⟩
  refine ⟨?_, ?_, ?_⟩
  · intro s' h
    by_contra hcon
    simp only [not_or] at hcon
    obtain ⟨s1, h1, _⟩ := hno (fun hh => hh.elim hcon.1 hcon.2.1) hcon.2.2
    rw [h1] at h
    exact absurd h (by simp)
  · intro hmem
    apply hno
    · intro hc
      simp only [List.mem_cons, List.mem_singleton, List.not_mem_nil, or_false] at hmem
      rcases hmem with h | h | h <;> rw [h] at hc <;> rcases hc with hc | hc <;>
        exact absurd hc (by decide)
    · intro hf
      simp only [wc_flag, List.mem_cons, List.mem_singleton, List.not_mem_nil, or_false] at hmem hf
      rcases hmem with h | h | h <;> rw [h] at hf <;> exact absurd hf (by decide)
  · intro hmem
    have hn : charAt s.uuline (skipws s.uuline s.uulp) ≠ '\x00' := by
      intro hn
      rw [hn] at hmem
      exact absurd hmem (by decide)
    have hc : ¬ (isalpha (charAt s.uuline (skipws s.uuline s.uulp)) = true ∨
        charAt s.uuline (skipws s.uuline s.uulp) = '_') := by
      intro hc
      simp only [List.mem_cons, List.mem_singleton, List.not_mem_nil, or_false] at hmem
      rcases hmem with h | h | h <;> rw [h] at hc <;> rcases hc with hc | hc <;>
        exact absurd hc (by decide)
    have hf : (strchr wc_flag (charAt s.uuline (skipws s.uuline s.uulp))).isSome = true := by
      rw [strchr_isSome _ _ hn]
      simpa [wc_flag] using hmem
    obtain ⟨s', h, _⟩ := match_single_matched all (attempt_identwc_flag s.uulp hn hc hf)
    exact ⟨s', h⟩

/-- C10 (as amended) at concrete inputs: the match of `identwc` on the test input
`"wc*a"` begins with a letter; on `"-x*"` and on `" ]a?"` `identwc` does not succeed; on
the test input `"*"` it succeeds. -/
theorem identwc_first_char_witness :
    (∃ s', _match false [Term.identwc] (start "wc*a".toList) = .ret 1 s' ∧
      (isalpha (charAt "wc*a".toList (skipws "wc*a".toList 0)) = true ∨
       charAt "wc*a".toList (skipws "wc*a".toList 0) = '_' ∨
       charAt "wc*a".toList (skipws "wc*a".toList 0) ∈ ['?', '*', '['])) ∧
    charAt "-x*".toList (skipws "-x*".toList 0) ∈ ['!', '-', ']'] ∧
    (∃ s', _match false [Term.identwc] (start "-x*".toList) = .ret 0 s' ∧
      s'.uulp = (start "-x*".toList).uulp) ∧
    charAt " ]a?".toList (skipws " ]a?".toList 0) ∈ ['!', '-', ']'] ∧
    (∃ s', _match true [Term.identwc] (start " ]a?".toList) = .ret 0 s' ∧
      s'.uulp = (start " ]a?".toList).uulp) ∧
    charAt "*".toList (skipws "*".toList 0) ∈ ['?', '*', '['] ∧
    (∃ s', _match true [Term.identwc] (start "*".toList) = .ret 1 s') :=
  ⟨⟨_, rfl, (identwc_first_char (start "wc*a".toList) false).1 _ rfl⟩,
   by decide,
   (identwc_first_char (start "-x*".toList) false).2.1 (by decide),
   by decide,
   (identwc_first_char (start " ]a?".toList) true).2.1 (by decide),
   by decide,
   (identwc_first_char (start "*".toList) true).2.2 (by decide)⟩

/-! ## C11: an unterminated quoted string -/

theorem charAt_drop_zero (line : List Char) (p : Nat) (c : Char) (cs : List Char)
    (h : line.drop p = c :: cs) : charAt line p = c ∧ line.drop (p + 1) = cs := by
  constructor
  · have := charAt_drop line p 0
    rw [h] at this
    simpa [charAt] using this.symm
  · rw [← List.drop_drop 1 p line, h]
    rfl

theorem charAt_drop_nil (line : List Char) (p : Nat) (h : line.drop p = []) :
    charAt line p = '\x00' := by
  have := charAt_drop line p 0
  rw [h] at this
  simpa [charAt] using this.symm

/-- Where the loop of the quoted-string branch stops: `n` characters after the opening
quote at `p`, none of them a terminator or a quote that is not preceded by a backslash,
and the character it stops on is one of these two. -/
theorem stringLoop_stop (line : List Char) : ∀ (l : List Char) (p : Nat),
    l = line.drop (p + 1) →
    (∀ j, j < stringLoop (charAt line p) l →
      charAt line (p + 1 + j) ≠ '\x00' ∧
      ¬ (charAt line (p + 1 + j) = '"' ∧ charAt line (p + j) ≠ '\\')) ∧
    (charAt line (p + 1 + stringLoop (charAt line p) l) = '\x00' ∨
      (charAt line (p + 1 + stringLoop (charAt line p) l) = '"' ∧
        charAt line (p + stringLoop (charAt line p) l) ≠ '\\')) := by
  intro l
  induction l with
  | nil =>
    intro p hl
    refine ⟨fun j hj => absurd hj (by simp [stringLoop]), Or.inl ?_⟩
    simpa [stringLoop] using charAt_drop_nil line (p + 1) hl.symm
  | cons c cs ih =>
    intro p hl
    obtain ⟨hc, hcs⟩ := charAt_drop_zero line (p + 1) c cs hl.symm
    by_cases h0 : c = '\x00'
    · have hn : stringLoop (charAt line p) (c :: cs) = 0 := by simp [stringLoop, h0]
      rw [hn]
      exact ⟨fun j hj => absurd hj (by omega), Or.inl (by rw [Nat.add_zero, hc, h0])⟩
    · by_cases hq : c = '"' ∧ charAt line p ≠ '\\'
      · have hn : stringLoop (charAt line p) (c :: cs) = 0 := by
          simp only [stringLoop, if_neg h0]
          rw [if_pos (by simpa using hq)]
        rw [hn]
        refine ⟨fun j hj => absurd hj (by omega), Or.inr ?_⟩
        rw [Nat.add_zero, Nat.add_zero, hc]
        exact hq
      · have hn : stringLoop (charAt line p) (c :: cs) = stringLoop (charAt line (p + 1)) cs + 1 := by
          simp only [stringLoop, if_neg h0]
          rw [if_neg (by simpa using hq), hc]
        rw [hn]
        obtain ⟨ih1, ih2⟩ := ih (p + 1) hcs.symm
        constructor
        · intro j hj
          cases j with
          | zero =>
            rw [Nat.add_zero, Nat.add_zero, hc]
            exact ⟨h0, hq⟩
          | succ j =>
            have := ih1 j (by omega)
            rw [show p + 1 + (j + 1) = p + 1 + 1 + j by omega,
              show p + (j + 1) = p + 1 + j by omega]
            exact this
        · rw [show p + 1 + (stringLoop (charAt line (p + 1)) cs + 1)
              = p + 1 + 1 + stringLoop (charAt line (p + 1)) cs by omega,
            show p + (stringLoop (charAt line (p + 1)) cs + 1)
              = p + 1 + stringLoop (charAt line (p + 1)) cs by omega]
          exact ih2

/-- The quoted-string branch of the dispatch on a text that starts with a quote. -/
theorem dispatch_string {line : List Char} (uulp : Nat) {lp : Nat} (a : uuargval)
    (hq : charAt line lp = '"') :
    dispatch line uulp Term.string lp a =
      if charAt line (lp + 1 + stringLoop '"' (line.drop (lp + 1))) ≠ '"'
      then .error "unterminated string"
        { a with lp := a.lp + 1, len := stringLoop '"' (line.drop (lp + 1)) }
      else .matched (lp + 1 + stringLoop '"' (line.drop (lp + 1)) + 1)
        { a with lp := a.lp + 1, len := stringLoop '"' (line.drop (lp + 1)) } := by
  simp only [dispatch, hq, if_true]

/-- The quoted-string branch when no closing quote follows. -/
theorem attempt_string_unterminated {line : List Char} (uulp : Nat) {p : Nat}
    (hq : charAt line (skipws line p) = '"')
    (hno : ∀ k, skipws line p < k → charAt line k = '"' → charAt line (k - 1) = '\\') :
    attempt line uulp Term.string p = .error "unterminated string" := by
  have hstop := (stringLoop_stop line _ (skipws line p) rfl).2
  rw [hq] at hstop
  have hne : charAt line (skipws line p + 1 + stringLoop '"' (line.drop (skipws line p + 1))) ≠ '"' := by
    intro hk
    rcases hstop with h0 | ⟨_, hb⟩
    · rw [h0] at hk; exact absurd hk (by decide)
    · have := hno _ (by omega) hk
      rw [show skipws line p + 1 + stringLoop '"' (line.drop (skipws line p + 1)) - 1
        = skipws line p + stringLoop '"' (line.drop (skipws line p + 1)) by omega] at this
      exact hb this
  unfold attempt
  rw [dispatch_string uulp _ hq, if_pos hne]
  rfl

/-- C11. Unterminated quoted string is fatal: on a line whose first non-whitespace
character at the cursor is a double-quote and which contains no later double-quote that
is not immediately preceded by a backslash, matching QuotedString calls
`uuerror("unterminated string")` in `Any` mode and in `All` mode; the call does not
return. -/
theorem unterminated_string_fatal (s : State) (all : Bool)
    (hq : charAt s.uuline (skipws s.uuline s.uulp) = '"')
    (hno : ∀ k, skipws s.uuline s.uulp < k → charAt s.uuline k = '"' →
      charAt s.uuline (k - 1) = '\\') :
    ∃ s', _match all [Term.string] s = .fatal s' ∧ s'.uumsg = "unterminated string" := by
  obtain ⟨s', h, hm, _⟩ := match_single_error all (attempt_string_unterminated s.uulp hq hno)
  exact ⟨s', h, hm⟩

theorem charAt_of_length_le {line : List Char} {k : Nat} (h : line.length ≤ k) :
    charAt line k = '\x00' := by
  simp only [charAt, List.getD_eq_getElem?_getD]
  rw [List.getElem?_eq_none h]
  rfl

/-- A check of every position of the line is a check of every position. -/
theorem no_closing_quote_of_bounded {line : List Char} {p : Nat}
    (h : ∀ k, k < line.length → p < k → charAt line k = '"' → charAt line (k - 1) = '\\') :
    ∀ k, p < k → charAt line k = '"' → charAt line (k - 1) = '\\' := by
  intro k hk hc
  by_cases hlt : k < line.length
  · exact h k hlt hk hc
  · rw [charAt_of_length_le (by omega)] at hc
    exact absurd hc (by decide)

/-- C11 at the inputs of the specification and of the test: `"\"unterminated"` and
`"\"missing a quote"` raise "unterminated string" in both modes, and so does
`expectall(ident, "[", integer, "]", "=", string)` on `anident[1234] = "open string`. -/
theorem unterminated_string_fatal_witness :
    charAt "\"unterminated".toList (skipws "\"unterminated".toList 0) = '"' ∧
    (∃ s', _match false [Term.string] (start "\"unterminated".toList) = .fatal s' ∧
      s'.uumsg = "unterminated string") ∧
    (∃ s', _match true [Term.string] (start "\"unterminated".toList) = .fatal s' ∧
      s'.uumsg = "unterminated string") ∧
    (∃ s', _match false [Term.string] (start "\"missing a quote".toList) = .fatal s' ∧
      s'.uumsg = "unterminated string") ∧
    (∃ s', _match true [Term.string] (start "\"missing a quote".toList) = .fatal s' ∧
      s'.uumsg = "unterminated string") ∧
    (∃ s', _match true [Term.ident, Term.lit "[".toList, Term.integer, Term.lit "]".toList,
        Term.lit "=".toList, Term.string] (start "anident[1234] = \"open string".toList)
        = .fatal s' ∧ s'.uumsg = "unterminated string") :=
  ⟨by decide,
   unterminated_string_fatal (start "\"unterminated".toList) false (by decide)
     (no_closing_quote_of_bounded (by decide)),
   unterminated_string_fatal (start "\"unterminated".toList) true (by decide)
     (no_closing_quote_of_bounded (by decide)),
   unterminated_string_fatal (start "\"missing a quote".toList) false (by decide)
     (no_closing_quote_of_bounded (by decide)),
   unterminated_string_fatal (start "\"missing a quote".toList) true (by decide)
     (no_closing_quote_of_bounded (by decide)),
   ⟨_, rfl, by decide⟩⟩

/-! ## C12: a literal followed by the end of input -/

/-- C12, the code at the failing input: the line `" 1"` with its whitespace removed is
exactly the literal `"1"`, yet `acceptall("1", eol)` returns 0 with `argfail = 0` and so
does `accept("1")`: the digit-boundary check of the literal branch reads `uulp[1]`, the
matched `'1'` itself, because the cursor `uulp` still stands on the leading blank. On
`"1 "`, without leading whitespace, both forms succeed. -/
theorem literal_eol_round_trip_divergence :
    trim " 1".toList = "1".toList ∧
    (∃ s', acceptall [Term.lit "1".toList, Term.eol] (start " 1".toList) = .ret 0 s' ∧
      s'.argfail = 0) ∧
    (∃ s', accept [Term.lit "1".toList] (start " 1".toList) = .ret 0 s') ∧
    trim "1 ".toList = "1".toList ∧
    (∃ s', acceptall [Term.lit "1".toList, Term.eol] (start "1 ".toList) = .ret 1 s') ∧
    (∃ s', accept [Term.lit "1".toList] (start "1 ".toList) = .ret 1 s' ∧
      ∃ s'', accept [Term.eol] s' = .ret 1 s'') :=
  ⟨by decide, ⟨_, rfl, by decide⟩, ⟨_, rfl⟩, by decide, ⟨_, rfl⟩, ⟨_, rfl, _, rfl⟩⟩

/-! ## C13: fatal conditions and the mode -/

theorem any_loop_fatal (resetlp : Nat) (ts : List Term) :
    ∀ (i k : Nat) (s : State) (t : Term) (m : String), i + ts.length ≤ UUMAX_ARGS →
      ts[k]? = some t → attempt s.uuline s.uulp t s.uulp = .error m →
      (∀ j u, j < k → ts[j]? = some u → (attempt s.uuline s.uulp u s.uulp).isNoMatch = true) →
      ∃ s', matchLoop false resetlp ts i s.uulp s = .fatal s' ∧ s'.uumsg = m ∧
        s'.uulp = s.uulp ∧ ∀ j, i + k < j → s'.arg j = s.arg j := by
  induction ts with
  | nil => intro i k s t m _ ht; simp at ht
  | cons u rest ih =>
    intro i k s t m hi ht hv hbefore
    have hi' : i < UUMAX_ARGS := by simp only [List.length_cons] at hi; omega
    cases k with
    | zero =>
      simp only [List.getElem?_cons_zero, Option.some.injEq] at ht
      subst ht
      obtain ⟨a, ha⟩ := matchLoop_error false resetlp _ rest _ _ _ hi' hv
      rw [ha]
      refine ⟨_, rfl, rfl, rfl, ?_⟩
      intro j hj
      simp only [setArg]
      rw [if_neg (by omega)]
    | succ k =>
      obtain ⟨q0, hq0⟩ := isNoMatch_iff.1 (hbefore 0 u (by omega) (by simp))
      obtain ⟨a, ha⟩ := matchLoop_no_match false resetlp _ rest _ _ _ hi' hq0
      rw [ha, if_neg (by simp)]
      simp only [List.getElem?_cons_succ] at ht
      obtain ⟨s', hs', hm, hcur, hslots⟩ := ih (i + 1) k { s with arg := setArg s.arg i a } t m
        (by simp only [List.length_cons] at hi; omega) ht hv
        (fun j w hj hw => hbefore (j + 1) w (by omega) (by simpa using hw))
      refine ⟨s', hs', hm, hcur, ?_⟩
      intro j hj
      rw [hslots j (by omega)]
      simp only [setArg]
      rw [if_neg (by omega)]

/-- The loop leaves the cursor and the line alone until it returns. -/
theorem matchLoop_fatal_cursor (all : Bool) (resetlp : Nat) (ts : List Term) :
    ∀ (i lp : Nat) (s s' : State), matchLoop all resetlp ts i lp s = .fatal s' →
      s'.uulp = s.uulp ∧ s'.uuline = s.uuline := by
  induction ts with
  | nil =>
    intro i lp s s' h
    cases all <;> simp [matchLoop] at h
  | cons t rest ih =>
    intro i lp s s' h
    by_cases hi : UUMAX_ARGS ≤ i
    · rw [matchLoop, if_pos hi] at h; exact absurd h (by simp)
    · have hi' : i < UUMAX_ARGS := by omega
      cases hv : attempt s.uuline s.uulp t lp with
      | matched q =>
        obtain ⟨a, ha⟩ := matchLoop_matched all resetlp _ rest _ _ _ hi' hv
        rw [ha] at h
        cases all
        · simp at h
        · simp only [if_true] at h
          have := ih _ _ _ _ h
          exact this
      | no_match q =>
        obtain ⟨a, ha⟩ := matchLoop_no_match all resetlp _ rest _ _ _ hi' hv
        rw [ha] at h
        cases all
        · simp only [Bool.false_eq_true, if_false] at h
          have := ih _ _ _ _ h
          exact this
        · simp at h
      | error m =>
        obtain ⟨a, ha⟩ := matchLoop_error all resetlp _ rest _ _ _ hi' hv
        rw [ha] at h
        have hs := Outcome.fatal.inj h
        subst hs
        exact ⟨rfl, rfl⟩
      | undefined =>
        rw [matchLoop_undefined hv] at h; exact absurd h (by simp)

/-- The two calls of `uuerror` in the dispatch. -/
theorem attempt_error_cases {line : List Char} {uulp : Nat} {t : Term} {p : Nat} {m : String}
    (h : attempt line uulp t p = .error m) :
    (t = Term.integer ∧ m = "integer overflow") ∨
    (t = Term.string ∧ m = "unterminated string") := by
  cases t with
  | integer =>
    left
    simp only [attempt, dispatch] at h
    (repeat' split at h) <;> simp_all [Step.verdict]
  | string =>
    right
    simp only [attempt, dispatch] at h
    (repeat' split at h) <;> simp_all [Step.verdict]
  | eol =>
    simp only [attempt, dispatch] at h
    (repeat' split at h) <;> simp_all [Step.verdict]
  | ident =>
    simp only [attempt, dispatch] at h
    (repeat' split at h) <;> simp_all [Step.verdict]
  | identwc =>
    simp only [attempt, dispatch] at h
    (repeat' split at h) <;> simp_all [Step.verdict]
  | word =>
    simp only [attempt, dispatch] at h
    (repeat' split at h) <;> simp_all [Step.verdict]
  | lit cp =>
    simp only [attempt, dispatch] at h
    (repeat' split at h) <;> simp_all [Step.verdict]

/-- C13. Fatal conditions override the mode: in `Any` mode on at most `UUMAX_ARGS`
terminals, if alternatives `0..k-1` end in an ordinary no-match and alternative `k` hits a
fatal condition (which is the integer overflow or the unterminated quoted string), the
call raises that condition with its message in `uumsg` and does not try the alternatives
after `k` (their slots are not written), whether or not one of them would match; in both
modes the cursor `uulp` after a raise equals its pre-call value. -/
theorem fatal_overrides_mode (s : State) (ts : List Term) (hcap : ts.length ≤ UUMAX_ARGS)
    (k : Nat) (t : Term) (m : String) (ht : ts[k]? = some t)
    (herr : attempt s.uuline s.uulp t s.uulp = .error m)
    (hbefore : ∀ j u, j < k → ts[j]? = some u →
      (attempt s.uuline s.uulp u s.uulp).isNoMatch = true) :
    (∃ s', _match false ts s = .fatal s' ∧ s'.uumsg = m ∧ s'.uulp = s.uulp ∧
      ∀ j, k < j → s'.arg j = s.arg j) ∧
    ((t = Term.integer ∧ m = "integer overflow") ∨
      (t = Term.string ∧ m = "unterminated string")) ∧
    (∀ (all : Bool) (s' : State), _match all ts s = .fatal s' → s'.uulp = s.uulp) := by
  refine ⟨?_, attempt_error_cases herr, ?_⟩
  · obtain ⟨s', hs', hm, hcur, hslots⟩ :=
      any_loop_fatal s.uulp ts 0 k { s with argmatch := -1, lpfail := s.uulp } t m
        (by omega) ht herr hbefore
    exact ⟨s', hs', hm, hcur, fun j hj => hslots j (by omega)⟩
  · intro all s' h
    exact (matchLoop_fatal_cursor all s.uulp ts 0 s.uulp
      { s with argmatch := -1, lpfail := s.uulp } s' h).1

/-- C13 at the example of the claim: `accept(integer, word)` on `"9223372036854775808"`
raises "integer overflow" with the cursor unchanged and slot 1 not written, although
`word` matches there; `accept(ident, string, word)` on `"\"open"` raises
"unterminated string" after `ident` failed. -/
theorem fatal_overrides_mode_witness :
    [Term.integer, Term.word].length ≤ UUMAX_ARGS ∧
    attempt "9223372036854775808".toList 0 Term.integer 0 = .error "integer overflow" ∧
    (attempt "9223372036854775808".toList 0 Term.word 0).isMatched = true ∧
    (∃ s', _match false [Term.integer, Term.word] (start "9223372036854775808".toList)
        = .fatal s' ∧ s'.uumsg = "integer overflow" ∧
      s'.uulp = (start "9223372036854775808".toList).uulp ∧
      ∀ j, 0 < j → s'.arg j = (start "9223372036854775808".toList).arg j) ∧
    (∃ s', _match false [Term.ident, Term.string, Term.word] (start "\"open".toList)
        = .fatal s' ∧ s'.uumsg = "unterminated string" ∧
      s'.uulp = (start "\"open".toList).uulp ∧
      ∀ j, 1 < j → s'.arg j = (start "\"open".toList).arg j) :=
  ⟨by decide, by decide, by decide,
   (fatal_overrides_mode (start "9223372036854775808".toList) [Term.integer, Term.word]
     (by decide) 0 Term.integer "integer overflow" (by decide) (by decide)
     (fun j u hj => absurd hj (by omega))).1,
   (fatal_overrides_mode (start "\"open".toList) [Term.ident, Term.string, Term.word]
     (by decide) 1 Term.string "unterminated string" (by decide) (by decide)
     (fun j u hj hu => by
       have hj0 : j = 0 := by omega
       subst hj0
       simp only [List.getElem?_cons_zero, Option.some.injEq] at hu
       subst hu
       decide)).1⟩

/-! ## C14: the diagnostic message -/

theorem lookup_term_all (t : Term) :
    (lookup_term t ALLTERMS).isSome = match t with
      | .lit _ => false
      | _ => true := by
  cases t <;> simp [lookup_term, ALLTERMS, _termcnt, _term, List.range', List.find?]

/-- What one iteration of the loop of `_expect_msg` appends for a listed terminal. -/
theorem expect_item (va : Term) (msg : List Char) :
    (if (lookup_term va ALLTERMS).isSome then msg ++ ['<'] ++ va.text ++ ['>']
      else msg ++ va.text) = msg ++ render va := by
  rw [lookup_term_all]
  cases va <;> simp [render, Term.text]

theorem renderList_cons (t : Term) (rest : List Term) :
    renderList (t :: rest) =
      render t ++ (if 0 < rest.length then [','] else []) ++ [' '] ++ renderList rest := by
  cases rest with
  | nil => simp [renderList]
  | cons u rest => simp [renderList]

theorem expectLoop_from (argfail : Nat) (ts : List Term) :
    ∀ (i : Nat) (msg : List Char), argfail ≤ i →
      expectLoop argfail ts i msg = msg ++ renderList ts := by
  induction ts with
  | nil => intro i msg _; simp [expectLoop, renderList]
  | cons va rest ih =>
    intro i msg hi
    rw [expectLoop, if_pos hi, expect_item, ih (i + 1) _ (by omega), renderList_cons]
    simp only [List.append_assoc]

theorem expectLoop_eq (argfail : Nat) (ts : List Term) :
    ∀ (i : Nat) (msg : List Char), i ≤ argfail →
      expectLoop argfail ts i msg = msg ++ renderList (ts.drop (argfail - i)) := by
  induction ts with
  | nil => intro i msg _; simp [expectLoop, renderList]
  | cons va rest ih =>
    intro i msg hi
    by_cases he : argfail ≤ i
    · rw [expectLoop_from argfail _ i msg he, show argfail - i = 0 by omega]
      rfl
    · rw [expectLoop, if_neg he, ih (i + 1) msg (by omega),
        show argfail - i = (argfail - (i + 1)) + 1 by omega]
      rfl

theorem any_loop_ret0 (resetlp : Nat) (ts : List Term) :
    ∀ (i lp : Nat) (s s' : State), matchLoop false resetlp ts i lp s = .ret 0 s' →
      s'.argfail = 0 := by
  induction ts with
  | nil =>
    intro i lp s s' h
    simp only [matchLoop, Bool.false_eq_true, if_false] at h
    have hs := (Outcome.ret.inj h).2
    subst hs
    rfl
  | cons t rest ih =>
    intro i lp s s' h
    by_cases hi : UUMAX_ARGS ≤ i
    · rw [matchLoop, if_pos hi] at h; exact absurd h (by simp)
    · have hi' : i < UUMAX_ARGS := by omega
      cases hv : attempt s.uuline s.uulp t lp with
      | matched q =>
        obtain ⟨a, ha⟩ := matchLoop_matched false resetlp _ rest _ _ _ hi' hv
        rw [ha, if_neg (by simp)] at h
        exact absurd (Outcome.ret.inj h).1 (by decide)
      | no_match q =>
        obtain ⟨a, ha⟩ := matchLoop_no_match false resetlp _ rest _ _ _ hi' hv
        rw [ha, if_neg (by simp)] at h
        exact ih _ _ _ _ h
      | error m =>
        obtain ⟨a, ha⟩ := matchLoop_error false resetlp _ rest _ _ _ hi' hv
        rw [ha] at h; exact absurd h (by simp)
      | undefined =>
        rw [matchLoop_undefined hv] at h; exact absurd h (by simp)

/-- The message `_expect_msg` builds, when it fits the buffer. -/
theorem expect_msg_eq (all : Bool) (ts : List Term) (s : State)
    (hany : all = false → s.argfail = 0)
    (hfit : (expectedMsg all ts s.argfail s.lpfail).length < MAX_UUMSG) :
    _expect_msg all ts s =
      some { s with uumsg := String.mk (expectedMsg all ts s.argfail s.lpfail) } := by
  have hone : ((decide ((s.argfail : Int) < (ts.length : Int) - 1) && !all) = true) ↔
      (all = false ∧ 1 < ts.length) := by
    cases all
    · have h0 := hany rfl
      simp only [Bool.not_false, Bool.and_true, decide_eq_true_eq, true_and]
      omega
    · simp
  have hmsg : (if 0 < s.lpfail then
        expectLoop s.argfail ts 0
          ("expected ".toList ++
            (if (decide ((s.argfail : Int) < (ts.length : Int) - 1) && !all) = true
              then "one of: ".toList else []))
          ++ "at position ".toList ++ decimal (1 + s.lpfail)
      else
        expectLoop s.argfail ts 0
          ("expected ".toList ++
            (if (decide ((s.argfail : Int) < (ts.length : Int) - 1) && !all) = true
              then "one of: ".toList else []))) =
      expectedMsg all ts s.argfail s.lpfail := by
    rw [expectLoop_eq s.argfail ts 0 _ (Nat.zero_le _), Nat.sub_zero]
    unfold expectedMsg
    by_cases h1 : all = false ∧ 1 < ts.length
    · rw [if_pos (hone.2 h1), if_pos h1]
      split
      · rw [Nat.add_comm 1 s.lpfail]; simp only [List.append_assoc]
      · simp only [List.append_nil]
    · rw [if_neg (fun h => h1 (hone.1 h)), if_neg h1]
      split
      · rw [Nat.add_comm 1 s.lpfail]; simp only [List.append_assoc]
      · simp only [List.append_nil]
  unfold _expect_msg
  simp only [hmsg]
  rw [if_neg (by omega)]

/-- C14. Diagnostic message format: after a failed strict call on the terminals `ts`
(`expect` is `Any`, `expectall` is `All`) whose message fits the buffer `uumsg`, control
leaves through the error jump and `uumsg` is "expected ", then "one of: " exactly when
the call was `Any` mode and `ts` has more than one terminal, then the terminals from the
failing index onward (all of them in `Any` mode, where the failing index is 0) with
built-in terminals rendered as `<name>` and literals as their bare text, each followed
by a comma unless it is the last and by a blank, then "at position K" with `K` the
1-based column of the recorded failure position exactly when that position is strictly
past the start of the line. -/
theorem expect_msg_format (all : Bool) (ts : List Term) (s s0 : State)
    (hfail : _match all ts s = .ret 0 s0)
    (hfit : (expectedMsg all ts s0.argfail s0.lpfail).length < MAX_UUMSG) :
    (all = false → s0.argfail = 0) ∧
    ∃ s', strict all ts s = .fatal s' ∧
      s'.uumsg = String.mk (expectedMsg all ts s0.argfail s0.lpfail) ∧
      s'.uulp = s0.uulp := by
  have hany : all = false → s0.argfail = 0 := by
    intro ha
    subst ha
    exact any_loop_ret0 s.uulp ts 0 s.uulp _ s0 hfail
  refine ⟨hany, ?_⟩
  unfold strict
  rw [hfail]
  simp only [if_true, expect_msg_eq all ts s0 hany hfit]
  exact ⟨_, rfl, rfl, rfl⟩

/-- C14 at the inputs of the test: `expectall("integer", integer)` on `"integer ABC"`
gives "expected <integer> at position 9", on `"intege 1234"` it gives the message that
lists `integer` then `<integer>` with no position; `expect("q", eol, integer)` on `"x"`
gives a message with "one of: ". -/
theorem expect_msg_format_witness :
    (∃ s0, _match true [Term.lit "integer".toList, Term.integer]
        (start "integer ABC".toList) = .ret 0 s0 ∧
      (expectedMsg true [Term.lit "integer".toList, Term.integer] s0.argfail s0.lpfail).length
        < MAX_UUMSG ∧
      ((true = false → s0.argfail = 0) ∧
        ∃ s', strict true [Term.lit "integer".toList, Term.integer]
            (start "integer ABC".toList) = .fatal s' ∧
          s'.uumsg = String.mk (expectedMsg true [Term.lit "integer".toList, Term.integer]
            s0.argfail s0.lpfail) ∧
          s'.uulp = s0.uulp) ∧
      String.mk (expectedMsg true [Term.lit "integer".toList, Term.integer]
        s0.argfail s0.lpfail) = "expected <integer> at position 9") ∧
    (∃ s', expectall [Term.lit "integer".toList, Term.integer] (start "integer ABC".toList)
        = .fatal s' ∧ s'.uumsg = "expected <integer> at position 9") ∧
    (∃ s', expectall [Term.lit "integer".toList, Term.integer] (start "intege 1234".toList)
        = .fatal s' ∧ s'.uumsg = "expected integer, <integer> ") ∧
    (∃ s', expect [Term.lit "q".toList, Term.eol, Term.integer] (start "x".toList)
        = .fatal s' ∧ s'.uumsg = "expected one of: q, <end of line>, <integer> ") :=
  ⟨⟨_, rfl, by decide,
     expect_msg_format true [Term.lit "integer".toList, Term.integer]
       (start "integer ABC".toList) _ rfl (by decide),
     by decide⟩,
   ⟨_, rfl, by decide⟩, ⟨_, rfl, by decide⟩, ⟨_, rfl, by decide⟩⟩

/-! ## C15: the capture slots -/

/-- The slot a matching dispatch leaves: the terminal and the start as stored before the
dispatch (the start moved past the opening quote of a quoted string), and the length of
the matched text, except for Integer, which leaves `len` alone. -/
theorem dispatch_matched_slot {line : List Char} {uulp : Nat} {t : Term} {lp q : Nat}
    {a a' : uuargval} (hlen : a.len = 0)
    (h : dispatch line uulp t lp a = .matched q a') :
    a'.term = a.term ∧ a'.lp = (if t = Term.string then a.lp + 1 else a.lp) ∧
    a'.len = (if t = Term.integer then 0 else matchedLen t lp q) := by
  cases t <;> simp only [dispatch] at h <;> (repeat' split at h) <;> cases h <;>
    (refine ⟨rfl, by simp, ?_⟩) <;> (try simp [matchedLen, hlen]) <;> (try omega)

/-- One iteration of the loop when the terminal matches, with the slot it stores. -/
theorem matchLoop_matched_slot (all : Bool) (resetlp : Nat) (t : Term) (rest : List Term)
    (i lp : Nat) (s : State) {q : Nat} (hi : i < UUMAX_ARGS)
    (h : attempt s.uuline s.uulp t lp = .matched q) :
    ∃ a, (a.term = some t ∧ a.lp = slotStart t (skipws s.uuline lp) ∧
        a.len = (if t = Term.integer then 0 else matchedLen t (skipws s.uuline lp) q)) ∧
      matchLoop all resetlp (t :: rest) i lp s =
        if all then
          matchLoop all resetlp rest (i + 1) (skipws s.uuline q) { s with arg := setArg s.arg i a }
        else
          .ret 1 { s with arg := setArg s.arg i a, uulp := skipws s.uuline q, argmatch := i } := by
  obtain ⟨a, ha⟩ := verdict_matched
    ((dispatch_attempt s.uuline s.uulp t lp
      { (s.arg i) with term := some t, len := 0, lp := skipws s.uuline lp }).trans h)
  obtain ⟨h1, h2, h3⟩ := dispatch_matched_slot rfl ha
  refine ⟨a, ⟨h1, ?_, h3⟩, ?_⟩
  · rw [h2]; rfl
  · rw [matchLoop, if_neg (by omega)]
    simp only [ha]

/-- The loop from index `i` writes no slot below `i` and leaves the line alone. -/
theorem matchLoop_frame (all : Bool) (resetlp : Nat) (ts : List Term) :
    ∀ (i lp : Nat) (s s' : State) (r : Nat), matchLoop all resetlp ts i lp s = .ret r s' →
      (∀ j, j < i → s'.arg j = s.arg j) ∧ s'.uuline = s.uuline := by
  induction ts with
  | nil =>
    intro i lp s s' r h
    cases all <;> simp only [matchLoop, Bool.false_eq_true, if_false, if_true] at h <;>
      (have hs := (Outcome.ret.inj h).2; subst hs; exact ⟨fun _ _ => rfl, rfl⟩)
  | cons t rest ih =>
    intro i lp s s' r h
    by_cases hi : UUMAX_ARGS ≤ i
    · rw [matchLoop, if_pos hi] at h; exact absurd h (by simp)
    · have hi' : i < UUMAX_ARGS := by omega
      have hset : ∀ (a : uuargval) (j : Nat), j < i → setArg s.arg i a j = s.arg j := by
        intro a j hj
        simp only [setArg]
        rw [if_neg (by omega)]
      cases hv : attempt s.uuline s.uulp t lp with
      | matched q =>
        obtain ⟨a, ha⟩ := matchLoop_matched all resetlp _ rest _ _ _ hi' hv
        rw [ha] at h
        cases all
        · simp only [Bool.false_eq_true, if_false] at h
          have hs := (Outcome.ret.inj h).2
          subst hs
          exact ⟨fun j hj => hset a j hj, rfl⟩
        · simp only [if_true] at h
          obtain ⟨h1, h2⟩ := ih _ _ _ _ _ h
          exact ⟨fun j hj => (h1 j (by omega)).trans (hset a j hj), h2⟩
      | no_match q =>
        obtain ⟨a, ha⟩ := matchLoop_no_match all resetlp _ rest _ _ _ hi' hv
        rw [ha] at h
        cases all
        · simp only [Bool.false_eq_true, if_false] at h
          obtain ⟨h1, h2⟩ := ih _ _ _ _ _ h
          exact ⟨fun j hj => (h1 j (by omega)).trans (hset a j hj), h2⟩
        · simp only [if_true] at h
          have hs := (Outcome.ret.inj h).2
          subst hs
          exact ⟨fun j hj => hset a j hj, rfl⟩
      | error m =>
        obtain ⟨a, ha⟩ := matchLoop_error all resetlp _ rest _ _ _ hi' hv
        rw [ha] at h; exact absurd h (by simp)
      | undefined =>
        rw [matchLoop_undefined hv] at h; exact absurd h (by simp)

theorem all_loop_slots (resetlp : Nat) (ts : List Term) :
    ∀ (i lp : Nat) (s s' : State), matchLoop true resetlp ts i lp s = .ret 1 s' →
      ∀ k t, ts[k]? = some t →
        ∃ p q, runAll s.uuline s.uulp (ts.take k) lp = some p ∧
          attempt s.uuline s.uulp t p = .matched q ∧
          (s'.arg (i + k)).term = some t ∧
          (s'.arg (i + k)).lp = slotStart t (skipws s.uuline p) ∧
          (s'.arg (i + k)).len =
            (if t = Term.integer then 0 else matchedLen t (skipws s.uuline p) q) := by
  induction ts with
  | nil => intro i lp s s' _ k t ht; simp at ht
  | cons u rest ih =>
    intro i lp s s' h k t ht
    by_cases hi : UUMAX_ARGS ≤ i
    · rw [matchLoop, if_pos hi] at h; exact absurd h (by simp)
    · have hi' : i < UUMAX_ARGS := by omega
      cases hv : attempt s.uuline s.uulp u lp with
      | matched q =>
        obtain ⟨a, ⟨ha1, ha2, ha3⟩, ha⟩ := matchLoop_matched_slot true resetlp _ rest _ _ _ hi' hv
        rw [ha, if_pos rfl] at h
        cases k with
        | zero =>
          simp only [List.getElem?_cons_zero, Option.some.injEq] at ht
          subst ht
          have hframe := (matchLoop_frame true resetlp rest _ _ _ _ _ h).1 i (by omega)
          have hslot : s'.arg (i + 0) = a := by
            rw [Nat.add_zero, hframe]
            simp [setArg]
          refine ⟨lp, q, rfl, hv, ?_, ?_, ?_⟩
          · rw [hslot]; exact ha1
          · rw [hslot]; exact ha2
          · rw [hslot]; exact ha3
        | succ k =>
          simp only [List.getElem?_cons_succ] at ht
          obtain ⟨p, q', hrun, hatt, h1, h2, h3⟩ := ih _ _ _ _ h k t ht
          refine ⟨p, q', ?_, hatt, ?_, ?_, ?_⟩
          · simp only [List.take_succ_cons, runAll, hv]
            exact hrun
          · rw [show i + (k + 1) = i + 1 + k by omega]; exact h1
          · rw [show i + (k + 1) = i + 1 + k by omega]; exact h2
          · rw [show i + (k + 1) = i + 1 + k by omega]; exact h3
      | no_match q =>
        obtain ⟨a, ha⟩ := matchLoop_no_match true resetlp _ rest _ _ _ hi' hv
        rw [ha, if_pos rfl] at h
        exact absurd (Outcome.ret.inj h).1 (by decide)
      | error m =>
        obtain ⟨a, ha⟩ := matchLoop_error true resetlp _ rest _ _ _ hi' hv
        rw [ha] at h; exact absurd h (by simp)
      | undefined =>
        rw [matchLoop_undefined hv] at h; exact absurd h (by simp)

theorem any_loop_slot (resetlp : Nat) (ts : List Term) :
    ∀ (i : Nat) (s s' : State), matchLoop false resetlp ts i s.uulp s = .ret 1 s' →
      ∃ k t q, s'.argmatch = ((i + k : Nat) : Int) ∧ ts[k]? = some t ∧
        attempt s.uuline s.uulp t s.uulp = .matched q ∧
        (s'.arg (i + k)).term = some t ∧
        (s'.arg (i + k)).lp = slotStart t (skipws s.uuline s.uulp) ∧
        (s'.arg (i + k)).len =
          (if t = Term.integer then 0 else matchedLen t (skipws s.uuline s.uulp) q) := by
  induction ts with
  | nil =>
    intro i s s' h
    simp [matchLoop] at h
  | cons u rest ih =>
    intro i s s' h
    by_cases hi : UUMAX_ARGS ≤ i
    · rw [matchLoop, if_pos hi] at h; exact absurd h (by simp)
    · have hi' : i < UUMAX_ARGS := by omega
      cases hv : attempt s.uuline s.uulp u s.uulp with
      | matched q =>
        obtain ⟨a, ⟨ha1, ha2, ha3⟩, ha⟩ := matchLoop_matched_slot false resetlp _ rest _ _ _ hi' hv
        rw [ha, if_neg (by simp)] at h
        have hs := (Outcome.ret.inj h).2
        subst hs
        have hslot : setArg s.arg i a (i + 0) = a := by simp [setArg]
        refine ⟨0, u, q, rfl, by simp, hv, ?_, ?_, ?_⟩
        · show (setArg s.arg i a (i + 0)).term = some u
          rw [hslot]; exact ha1
        · show (setArg s.arg i a (i + 0)).lp = _
          rw [hslot]; exact ha2
        · show (setArg s.arg i a (i + 0)).len = _
          rw [hslot]; exact ha3
      | no_match q =>
        obtain ⟨a, ha⟩ := matchLoop_no_match false resetlp _ rest _ _ _ hi' hv
        rw [ha, if_neg (by simp)] at h
        obtain ⟨k, t, q', hk, ht, hatt, h1, h2, h3⟩ :=
          ih (i + 1) { s with arg := setArg s.arg i a } s' h
        refine ⟨k + 1, t, q', ?_, by simpa using ht, hatt, ?_, ?_, ?_⟩
        · rw [hk]; congr 1; omega
        · rw [show i + (k + 1) = i + 1 + k by omega]; exact h1
        · rw [show i + (k + 1) = i + 1 + k by omega]; exact h2
        · rw [show i + (k + 1) = i + 1 + k by omega]; exact h3
      | error m =>
        obtain ⟨a, ha⟩ := matchLoop_error false resetlp _ rest _ _ _ hi' hv
        rw [ha] at h; exact absurd h (by simp)
      | undefined =>
        rw [matchLoop_undefined hv] at h; exact absurd h (by simp)

/-- C15 as stated fails: `accept(integer)` and `acceptall(integer)` on the test input
`"1024"` succeed, the terminal matched the four characters from position 0 to
position 4, yet `arg[0].len` is 0 (the Integer branch stores the value, 1024, and leaves
`len` as the loop reset it). -/
theorem capture_slots_integer_counterexample :
    attempt "1024".toList 0 Term.integer 0 = .matched 4 ∧
    matchedLen Term.integer (skipws "1024".toList 0) 4 = 4 ∧
    (∃ s', _match false [Term.integer] (start "1024".toList) = .ret 1 s' ∧
      s'.argmatch = 0 ∧ (s'.arg 0).term = some Term.integer ∧ (s'.arg 0).lp = 0 ∧
      (s'.arg 0).len = 0 ∧ (s'.arg 0).i = 1024) ∧
    (∃ s', _match true [Term.integer] (start "1024".toList) = .ret 1 s' ∧
      (s'.arg 0).len = 0 ∧
      (s'.arg 0).len ≠ matchedLen Term.integer (skipws "1024".toList 0) 4) :=
  ⟨by decide, by decide, ⟨_, rfl, by decide⟩, ⟨_, rfl, by decide⟩⟩

/-- C15 (as amended). Capture slots hold the matched span: after a successful call, for
every terminal that matched (every index `k` of the list in `All` mode, the index
`argmatch` in `Any` mode), slot `k` records that terminal in `arg[k].term`, the position
where its matched text begins in `arg[k].lp` (after the opening quote for QuotedString)
and, for the kinds Identifier, IdentifierWithWildcard, Word, QuotedString, EndOfInput and
Literal, the number of characters of the line that the terminal matched in `arg[k].len`
(for QuotedString the text between the quotes, for EndOfInput zero); for Integer
`arg[k].len` is 0, the branch stores the decoded value and does not count the digits. -/
theorem capture_slots (s s' : State) (ts : List Term) :
    (_match true ts s = .ret 1 s' →
      ∀ k t, ts[k]? = some t →
        ∃ p q, runAll s.uuline s.uulp (ts.take k) s.uulp = some p ∧
          attempt s.uuline s.uulp t p = .matched q ∧
          (s'.arg k).term = some t ∧
          (s'.arg k).lp = slotStart t (skipws s.uuline p) ∧
          (s'.arg k).len =
            (if t = Term.integer then 0 else matchedLen t (skipws s.uuline p) q)) ∧
    (_match false ts s = .ret 1 s' →
      ∃ (k : Nat) (t : Term) (q : Nat), s'.argmatch = (k : Int) ∧ ts[k]? = some t ∧
        attempt s.uuline s.uulp t s.uulp = .matched q ∧
        (s'.arg k).term = some t ∧
        (s'.arg k).lp = slotStart t (skipws s.uuline s.uulp) ∧
        (s'.arg k).len =
          (if t = Term.integer then 0 else matchedLen t (skipws s.uuline s.uulp) q)) := by
  constructor
  · intro h k t ht
    have := all_loop_slots s.uulp ts 0 s.uulp { s with argmatch := -1, lpfail := s.uulp } s' h k t ht
    simpa only [Nat.zero_add] using this
  · intro h
    have := any_loop_slot s.uulp ts 0 { s with argmatch := -1, lpfail := s.uulp } s' h
    simpa only [Nat.zero_add] using this

/-- C15 (as amended) at concrete inputs: `acceptall(ident, "[", integer, "]", "=", string)`
on `tab[12] = "a b"` fills the six slots (the identifier of length 3 at 0, the quoted
text of length 3 at 11, the integer with `len = 0` and value 12), and `accept(word)` on
the test input `"      match3     "` records the word of length 6 at position 6. -/
theorem capture_slots_witness :
    (∃ s', _match true [Term.ident, Term.lit "[".toList, Term.integer, Term.lit "]".toList,
          Term.lit "=".toList, Term.string] (start "tab[12] = \"a b\"".toList) = .ret 1 s' ∧
      (∃ p q, runAll "tab[12] = \"a b\"".toList 0
          ([Term.ident, Term.lit "[".toList, Term.integer, Term.lit "]".toList,
            Term.lit "=".toList, Term.string].take 5) 0 = some p ∧
        attempt "tab[12] = \"a b\"".toList 0 Term.string p = .matched q ∧
        (s'.arg 5).term = some Term.string ∧
        (s'.arg 5).lp = slotStart Term.string (skipws "tab[12] = \"a b\"".toList p) ∧
        (s'.arg 5).len = (if Term.string = Term.integer then 0
          else matchedLen Term.string (skipws "tab[12] = \"a b\"".toList p) q)) ∧
      (s'.arg 0).lp = 0 ∧ (s'.arg 0).len = 3 ∧ (s'.arg 1).lp = 3 ∧ (s'.arg 1).len = 1 ∧
      (s'.arg 2).lp = 4 ∧ (s'.arg 2).len = 0 ∧ (s'.arg 2).i = 12 ∧
      (s'.arg 5).lp = 11 ∧ (s'.arg 5).len = 3) ∧
    (∃ s', _match false [Term.word] (start "      match3     ".toList) = .ret 1 s' ∧
      (∃ (k : Nat) (t : Term) (q : Nat), s'.argmatch = (k : Int) ∧ [Term.word][k]? = some t ∧
        attempt "      match3     ".toList 0 t 0 = .matched q ∧
        (s'.arg k).term = some t ∧
        (s'.arg k).lp = slotStart t (skipws "      match3     ".toList 0) ∧
        (s'.arg k).len = (if t = Term.integer then 0
          else matchedLen t (skipws "      match3     ".toList 0) q)) ∧
      (s'.arg 0).lp = 6 ∧ (s'.arg 0).len = 6) :=
  ⟨⟨_, rfl,
     (capture_slots (start "tab[12] = \"a b\"".toList) _
       [Term.ident, Term.lit "[".toList, Term.integer, Term.lit "]".toList,
         Term.lit "=".toList, Term.string]).1 rfl 5 Term.string (by decide),
     by decide⟩,
   ⟨_, rfl,
     (capture_slots (start "      match3     ".toList) _ [Term.word]).2 rfl,
     by decide⟩⟩

/-! ## C16: literal text that spells the name of a built-in -/

theorem char_toNat_inj {a b : Char} (h : a.toNat = b.toNat) : a = b := by
  apply Char.ext
  cases a with
  | mk va ha =>
    cases b with
    | mk vb hb =>
      simp only [Char.toNat] at h
      exact UInt32.ext (by simpa [UInt32.toNat] using h)

theorem charAt_append_left_pos {xs : List Char} (ys : List Char) (h : 0 < xs.length) :
    charAt (xs ++ ys) 0 = charAt xs 0 := by
  cases xs with
  | nil => simp at h
  | cons x xs => simp [charAt]

/-- The comparison `strncmp` is nonzero when the first characters differ. -/
theorem strncmp_first_ne {s1 s2 : List Char} (n : Nat) (h : charAt s1 0 ≠ charAt s2 0) :
    strncmp s1 s2 (n + 1) ≠ 0 := by
  rw [strncmp, if_pos h]
  intro h0
  apply h
  apply char_toNat_inj
  omega

/-- For a text without NUL, `strncmp` over its whole length is zero exactly on the
strings that start with it. -/
theorem strncmp_eq_zero_iff (L : List Char) (hL : '\x00' ∉ L) : ∀ text : List Char,
    strncmp L text (strlen L) = 0 ↔ L <+: text := by
  induction L with
  | nil => intro text; simp [strlen, strncmp]
  | cons x xs ih =>
    intro text
    have hx : x ≠ '\x00' := fun h => hL (by rw [h]; exact List.mem_cons_self _ _)
    have hxs : '\x00' ∉ xs := fun h => hL (List.mem_cons_of_mem _ h)
    cases text with
    | nil =>
      constructor
      · intro h
        exact absurd h (strncmp_first_ne _ (by simpa [charAt] using hx))
      · intro h
        simp at h
    | cons y ys =>
      by_cases hxy : x = y
      · subst hxy
        have hstep : strncmp (x :: xs) (x :: ys) (strlen (x :: xs)) = strncmp xs ys (strlen xs) := by
          simp only [strlen, List.length_cons, strncmp, charAt, List.getD_cons_zero, ne_eq,
            not_true_eq_false, if_false, List.tail_cons, if_neg hx]
        rw [hstep, ih hxs ys]
        constructor
        · rintro ⟨r, hr⟩; exact ⟨r, by simp [hr]⟩
        · rintro ⟨r, hr⟩
          simp only [List.cons_append, List.cons.injEq, true_and] at hr
          exact ⟨r, hr⟩
      · constructor
        · intro h
          exact absurd h (strncmp_first_ne _ (by simpa [charAt] using hxy))
        · rintro ⟨r, hr⟩
          simp only [List.cons_append, List.cons.injEq] at hr
          exact absurd hr.1 hxy

/-- The literal branch for a text without NUL that ends in a letter: it matches exactly
when the line spells the text at the scan position and no letter follows. -/
theorem attempt_lit_alpha_iff (line : List Char) (uulp p : Nat) {L : List Char}
    (hL : L ≠ []) (hnul : '\x00' ∉ L) (hlast : isalpha (L.getLast hL) = true) :
    attempt line uulp (Term.lit L) p =
      if L <+: line.drop (skipws line p) ∧
          isalpha (charAt line (skipws line p + L.length)) = false
      then .matched (skipws line p + L.length)
      else .no_match (skipws line p) := by
  have hlen : strlen L ≠ 0 := by
    simp only [strlen]; exact fun h => hL (List.length_eq_zero.1 h)
  have hiff := strncmp_eq_zero_iff L hnul (line.drop (skipws line p))
  by_cases hpre : L <+: line.drop (skipws line p)
  · have hcmp := hiff.2 hpre
    by_cases hnext : isalpha (charAt line (skipws line p + L.length)) = true
    · have hnext' : isalpha (charAt line (skipws line p + strlen L)) = true := hnext
      rw [if_neg (by simp [hnext])]
      simp only [attempt, dispatch, hcmp, if_true, hlen, if_false, charAt_getLast L hL, hlast,
        hnext', Step.verdict]
    · have hnext' : ¬ isalpha (charAt line (skipws line p + strlen L)) = true := hnext
      rw [if_pos ⟨hpre, by simpa using hnext⟩]
      simp only [attempt, dispatch, hcmp, if_true, hlen, if_false, charAt_getLast L hL, hlast,
        hnext', Step.verdict]
      rfl
  · have hcmp : ¬ strncmp L (line.drop (skipws line p)) (strlen L) = 0 := fun h => hpre (hiff.1 h)
    rw [if_neg (fun h => hpre h.1)]
    simp only [attempt, dispatch, hcmp, if_false, Step.verdict]

/-- The names of the built-in terminals are non-empty, without NUL, and end and begin
with a letter. -/
theorem builtin_text (t : Term) (ht : ∀ cp, t ≠ Term.lit cp) :
    ∃ hne : t.text ≠ [], '\x00' ∉ t.text ∧ isalpha (t.text.getLast hne) = true ∧
      isalpha (charAt t.text 0) = true := by
  cases t with
  | lit cp => exact absurd rfl (ht cp)
  | eol => exact ⟨by decide, by decide, by decide, by decide⟩
  | string => exact ⟨by decide, by decide, by decide, by decide⟩
  | ident => exact ⟨by decide, by decide, by decide, by decide⟩
  | identwc => exact ⟨by decide, by decide, by decide, by decide⟩
  | integer => exact ⟨by decide, by decide, by decide, by decide⟩
  | word => exact ⟨by decide, by decide, by decide, by decide⟩

/-- C16. Literal text is never promoted to a built-in kind: a literal terminal whose text
is the name of a built-in terminal `t` (such as the string literal "integer") is matched
verbatim: it matches exactly when the line at the whitespace-skipped scan position spells
that text and no letter follows it (the boundary rule), so it never matches a digit run;
`lookup_term` does not find it, and the message builder renders it without brackets,
while it renders the built-in handle between `<` and `>`. -/
theorem literal_not_promoted (t : Term) (ht : ∀ cp, t ≠ Term.lit cp)
    (line : List Char) (uulp p : Nat) :
    (attempt line uulp (Term.lit t.text) p =
      if t.text <+: line.drop (skipws line p) ∧
          isalpha (charAt line (skipws line p + t.text.length)) = false
      then .matched (skipws line p + t.text.length)
      else .no_match (skipws line p)) ∧
    (isdigit (charAt line (skipws line p)) = true →
      attempt line uulp (Term.lit t.text) p = .no_match (skipws line p)) ∧
    lookup_term (Term.lit t.text) ALLTERMS = none ∧
    lookup_term (Term.lit t.text) USRTERMS = none ∧
    (lookup_term t ALLTERMS).isSome = true ∧
    render (Term.lit t.text) = t.text ∧
    render t = ['<'] ++ t.text ++ ['>'] := by
  obtain ⟨hne, hnul, hlast, hfirst⟩ := builtin_text t ht
  have hatt := attempt_lit_alpha_iff line uulp p hne hnul hlast
  refine ⟨hatt, ?_, ?_, ?_, ?_, rfl, ?_⟩
  · intro hd
    rw [hatt, if_neg]
    rintro ⟨⟨r, hr⟩, _⟩
    have h0 : charAt (line.drop (skipws line p)) 0 = charAt t.text 0 := by
      rw [← hr]
      exact charAt_append_left_pos r (List.length_pos.2 hne)
    rw [charAt_drop, Nat.add_zero] at h0
    rw [h0] at hd
    revert hd hfirst
    generalize charAt t.text 0 = c
    intro hd ha
    simp only [isdigit, isalpha, Bool.and_eq_true, Bool.or_eq_true, decide_eq_true_eq] at hd ha
    omega
  · simp [lookup_term, ALLTERMS, _termcnt, _term, List.range', List.find?]
  · simp [lookup_term, USRTERMS, _termcnt]
  · rw [lookup_term_all]
    cases t with
    | lit cp => exact absurd rfl (ht cp)
    | _ => rfl
  · cases t with
    | lit cp => exact absurd rfl (ht cp)
    | _ => rfl

/-- C16 at the inputs of the test: the literal "integer" is not a digit matcher (it is an
ordinary no-match on `"1234"`), and `All` with `[Literal "integer", Integer]` succeeds on
`"integer 1234"`, fails at index 0 on `"intege 1234"` and fails at index 1 on
`"integer ABC"`. -/
theorem literal_not_promoted_witness :
    (∀ cp, Term.integer ≠ Term.lit cp) ∧
    Term.integer.text = "integer".toList ∧
    isdigit (charAt "1234".toList (skipws "1234".toList 0)) = true ∧
    attempt "1234".toList 0 (Term.lit Term.integer.text) 0
      = .no_match (skipws "1234".toList 0) ∧
    render (Term.lit Term.integer.text) = "integer".toList ∧
    render Term.integer = "<integer>".toList ∧
    (∃ s', _match true [Term.lit "integer".toList, Term.integer] (start "integer 1234".toList)
      = .ret 1 s' ∧ (s'.arg 1).i = 1234) ∧
    (∃ s', _match true [Term.lit "integer".toList, Term.integer] (start "intege 1234".toList)
      = .ret 0 s' ∧ s'.argfail = 0) ∧
    (∃ s', _match true [Term.lit "integer".toList, Term.integer] (start "integer ABC".toList)
      = .ret 0 s' ∧ s'.argfail = 1) :=
  ⟨fun cp h => Term.noConfusion h, by decide, by decide,
   (literal_not_promoted Term.integer (fun cp h => Term.noConfusion h) "1234".toList 0 0).2.1
     (by decide),
   by decide, by decide, ⟨_, rfl, by decide⟩, ⟨_, rfl, by decide⟩, ⟨_, rfl, by decide⟩⟩

/-! ## C17: the capture of a quoted string -/

theorem charAt_ne_nul_of_lt {line : List Char} (hnul : '\x00' ∉ line) {k : Nat}
    (hk : k < line.length) : charAt line k ≠ '\x00' := by
  rcases charAt_mem line k with h | h
  · exfalso
    simp only [charAt, List.getD_eq_getElem?_getD, List.getElem?_eq_getElem hk,
      Option.getD_some] at h
    exact hnul (h ▸ List.getElem_mem hk)
  · intro h0
    exact hnul (h0 ▸ h)

theorem lt_length_of_charAt_ne_nul {line : List Char} {k : Nat}
    (h : charAt line k ≠ '\x00') : k < line.length := by
  by_contra hk
  exact h (charAt_of_length_le (by omega))

/-- The length the quoted-string loop counts when the first closing quote is at `k`. -/
theorem stringLoop_closing {line : List Char} (hnul : '\x00' ∉ line) {p k : Nat}
    (hpk : p < k) (hk : charAt line k = '"') (hesc : charAt line (k - 1) ≠ '\\')
    (hfirst : ∀ j, p < j → j < k → ¬ (charAt line j = '"' ∧ charAt line (j - 1) ≠ '\\')) :
    stringLoop (charAt line p) (line.drop (p + 1)) = k - (p + 1) := by
  obtain ⟨h1, h2⟩ := stringLoop_stop line _ p rfl
  have hklen : k < line.length := lt_length_of_charAt_ne_nul (by rw [hk]; decide)
  rcases Nat.lt_trichotomy (stringLoop (charAt line p) (line.drop (p + 1))) (k - (p + 1))
    with hlt | heq | hgt
  · exfalso
    rcases h2 with h0 | ⟨hq, hb⟩
    · exact charAt_ne_nul_of_lt hnul (by omega) h0
    · apply hfirst (p + 1 + stringLoop (charAt line p) (line.drop (p + 1))) (by omega) (by omega)
      refine ⟨hq, ?_⟩
      rw [show p + 1 + stringLoop (charAt line p) (line.drop (p + 1)) - 1
        = p + stringLoop (charAt line p) (line.drop (p + 1)) by omega]
      exact hb
  · exact heq
  · exfalso
    have := (h1 (k - (p + 1)) hgt).2
    rw [show p + 1 + (k - (p + 1)) = k by omega, show p + (k - (p + 1)) = k - 1 by omega] at this
    exact this ⟨hk, hesc⟩

/-- C17. QuotedString capture: on a line (without NUL) whose text at the
whitespace-skipped cursor is a double-quote followed later by a double-quote not
immediately preceded by a backslash, the first such closing quote being at `k`, matching
QuotedString succeeds in either mode, `arg[0].lp` is the character after the opening
quote, `arg[0].len` is the number of characters before the closing quote
(backslash-preceded quotes are kept inside the span), and the cursor moves past the
closing quote and the whitespace that follows; on a line whose text at the
whitespace-skipped cursor does not start with a double-quote the call ends in an
ordinary no-match with the cursor unchanged. -/
theorem quoted_string_capture (s : State) (all : Bool) :
    (∀ k, '\x00' ∉ s.uuline →
      charAt s.uuline (skipws s.uuline s.uulp) = '"' →
      skipws s.uuline s.uulp < k → charAt s.uuline k = '"' →
      charAt s.uuline (k - 1) ≠ '\\' →
      (∀ j, skipws s.uuline s.uulp < j → j < k →
        ¬ (charAt s.uuline j = '"' ∧ charAt s.uuline (j - 1) ≠ '\\')) →
      ∃ s', _match all [Term.string] s = .ret 1 s' ∧
        (s'.arg 0).lp = skipws s.uuline s.uulp + 1 ∧
        (s'.arg 0).len = k - (skipws s.uuline s.uulp + 1) ∧
        s'.uulp = skipws s.uuline (k + 1)) ∧
    (charAt s.uuline (skipws s.uuline s.uulp) ≠ '"' →
      ∃ s', _match all [Term.string] s = .ret 0 s' ∧ s'.uulp = s.uulp) := by
  constructor
  · intro k hnul hq hpk hk hesc hfirst
    have hn := stringLoop_closing hnul hpk hk hesc hfirst
    rw [hq] at hn
    have hstep := dispatch_string s.uulp
      { (s.arg 0) with term := some Term.string, len := 0, lp := skipws s.uuline s.uulp } hq
    rw [hn, show skipws s.uuline s.uulp + 1 + (k - (skipws s.uuline s.uulp + 1)) = k by omega,
      if_neg (by simp [hk])] at hstep
    obtain ⟨s', h, hcur, hslot⟩ := match_single_step_matched all hstep
    exact ⟨s', h, by rw [hslot], by rw [hslot], hcur⟩
  · intro hq
    have hatt : attempt s.uuline s.uulp Term.string s.uulp = .no_match (skipws s.uuline s.uulp) := by
      simp [attempt, dispatch, hq, Step.verdict]
    obtain ⟨s', h, hcur, _⟩ := match_single_no_match all hatt
    exact ⟨s', h, hcur⟩

/-- A check of the positions before `k`, for a concrete line. -/
theorem first_closing_of_bounded {line : List Char} {p k : Nat}
    (h : ∀ j, j < k → p < j → ¬ (charAt line j = '"' ∧ charAt line (j - 1) ≠ '\\')) :
    ∀ j, p < j → j < k → ¬ (charAt line j = '"' ∧ charAt line (j - 1) ≠ '\\') :=
  fun j hpj hjk => h j hjk hpj

/-- C17 at the inputs of the test table: `"embedded \"quoted_text\""` between quotes is
captured whole up to its final quote (24 characters from position 1, the cursor at the
end), `""` gives length 0, and `ident` is an ordinary no-match. -/
theorem quoted_string_capture_witness :
    (∃ s', _match false [Term.string] (start "\"embedded \\\"quoted_text\\\"\"".toList)
        = .ret 1 s' ∧
      (s'.arg 0).lp = skipws "\"embedded \\\"quoted_text\\\"\"".toList 0 + 1 ∧
      (s'.arg 0).len = 25 - (skipws "\"embedded \\\"quoted_text\\\"\"".toList 0 + 1) ∧
      s'.uulp = skipws "\"embedded \\\"quoted_text\\\"\"".toList (25 + 1)) ∧
    (∃ s', _match true [Term.string] (start "\"embedded \\\"quoted_text\\\"\"".toList)
        = .ret 1 s' ∧ (s'.arg 0).lp = 1 ∧ (s'.arg 0).len = 24 ∧ s'.uulp = 26 ∧
      "\"embedded \\\"quoted_text\\\"\"".toList.length = 26) ∧
    (∃ s', _match false [Term.string] (start "\"\"".toList) = .ret 1 s' ∧
      (s'.arg 0).lp = 1 ∧ (s'.arg 0).len = 0 ∧ s'.uulp = 2) ∧
    (∃ s', _match false [Term.string] (start "ident".toList) = .ret 0 s' ∧
      s'.uulp = (start "ident".toList).uulp) :=
  ⟨(quoted_string_capture (start "\"embedded \\\"quoted_text\\\"\"".toList) false).1 25
     (by decide) (by decide) (by decide) (by decide) (by decide)
     (first_closing_of_bounded (by decide)),
   ⟨_, rfl, by decide⟩, ⟨_, rfl, by decide⟩,
   (quoted_string_capture (start "ident".toList) false).2 (by decide)⟩

/-! ## C18: the cursor after a successful call -/

theorem spaces_le (l : List Char) : spaces l ≤ l.length := by
  induction l with
  | nil => simp [spaces]
  | cons c cs ih =>
    simp only [spaces, List.length_cons]
    split <;> omega

theorem spaces_stop (l : List Char) : isspace (charAt l (spaces l)) = false := by
  induction l with
  | nil => simp only [spaces]; decide
  | cons c cs ih =>
    simp only [spaces]
    split
    · simpa [charAt] using ih
    · rename_i hc
      simpa [charAt] using hc

theorem le_skipws (line : List Char) (p : Nat) : p ≤ skipws line p := by
  simp [skipws]

theorem skipws_le_length {line : List Char} {p : Nat} (h : p ≤ line.length) :
    skipws line p ≤ line.length := by
  have := spaces_le (line.drop p)
  simp only [List.length_drop] at this
  simp only [skipws]
  omega

/-- After the whitespace skip the scan stands on a character that is not whitespace. -/
theorem isspace_skipws (line : List Char) (p : Nat) :
    isspace (charAt line (skipws line p)) = false := by
  have := spaces_stop (line.drop p)
  rwa [charAt_drop] at this

theorem identLoop_le (l : List Char) : identLoop l ≤ l.length := by
  induction l with
  | nil => simp [identLoop]
  | cons c cs ih =>
    simp only [identLoop, List.length_cons]
    split <;> omega

theorem wordLoop_le (l : List Char) : wordLoop l ≤ l.length := by
  induction l with
  | nil => simp [wordLoop]
  | cons c cs ih =>
    simp only [wordLoop, List.length_cons]
    split <;> omega

theorem wcRun_le (l : List Char) : wcRun l ≤ l.length := by
  simp only [wcRun]
  exact (List.takeWhile_sublist _).length_le

theorem digitRun_le (l : List Char) : (digitRun l).length ≤ l.length := by
  simp only [digitRun]
  exact (List.takeWhile_sublist _).length_le

/-- Where a match leaves the scan: at or after the whitespace-skipped start of the
attempt, and not beyond the terminator of the line. -/
theorem attempt_matched_bounds {line : List Char} (uulp : Nat) {t : Term} {p q : Nat}
    (hp : p ≤ line.length) (hlit : ∀ L, t = Term.lit L → '\x00' ∉ L)
    (h : attempt line uulp t p = .matched q) :
    skipws line p ≤ q ∧ q ≤ line.length := by
  have hsk := skipws_le_length hp
  have hdrop : ∀ k, (line.drop k).length = line.length - k := fun k => List.length_drop k line
  cases t with
  | eol =>
    simp only [attempt, dispatch] at h
    split at h <;> simp only [Step.verdict, Verdict.matched.injEq, reduceCtorEq] at h
    omega
  | string =>
    by_cases hq : charAt line (skipws line p) = '"'
    · unfold attempt at h
      rw [dispatch_string uulp _ hq] at h
      split at h
      · simp [Step.verdict] at h
      · rename_i hclose
        simp only [Step.verdict, Verdict.matched.injEq] at h
        have hlt : skipws line p + 1 + stringLoop '"' (line.drop (skipws line p + 1))
            < line.length :=
          lt_length_of_charAt_ne_nul (by
            intro h0
            apply hclose
            rw [h0]; decide)
        omega
    · simp [attempt, dispatch, hq, Step.verdict] at h
  | ident =>
    by_cases hc : isalpha (charAt line (skipws line p)) = true ∨ charAt line (skipws line p) = '_'
    · rw [attempt_ident uulp hc] at h
      simp only [Verdict.matched.injEq] at h
      have hlt := lt_length_of_charAt_ne_nul (isalpha_ne_nul hc)
      have := identLoop_le (line.drop (skipws line p + 1))
      rw [hdrop] at this
      omega
    · have hb : (isalpha (charAt line (skipws line p)) || decide (charAt line (skipws line p) = '_')) = false := by
        simpa using hc
      simp [attempt, dispatch, hb, Step.verdict] at h
  | identwc =>
    have hrun := wcRun_le (line.drop (skipws line p + 1))
    rw [hdrop] at hrun
    by_cases hc : isalpha (charAt line (skipws line p)) = true ∨ charAt line (skipws line p) = '_'
    · rw [attempt_identwc_alpha uulp hc] at h
      have hlt := lt_length_of_charAt_ne_nul (isalpha_ne_nul hc)
      split at h
      · simp at h
      · simp only [Verdict.matched.injEq] at h
        omega
    · by_cases hn : charAt line (skipws line p) = '\x00'
      · rw [attempt_identwc_other uulp hc (Or.inl hn)] at h
        simp at h
      · have hlt := lt_length_of_charAt_ne_nul hn
        cases hf : (strchr wc_flag (charAt line (skipws line p))).isSome
        · rw [attempt_identwc_other uulp hc (Or.inr hf)] at h
          simp at h
        · rw [attempt_identwc_flag uulp hn hc hf] at h
          simp only [Verdict.matched.injEq] at h
          omega
  | integer =>
    have hrun := digitRun_le (line.drop (skipws line p))
    rw [hdrop] at hrun
    cases hd : isdigit (charAt line (skipws line p))
    · rw [attempt_integer_nondigit uulp hd] at h
      simp at h
    · rw [attempt_integer uulp hd] at h
      split at h
      · simp only [Verdict.matched.injEq] at h
        omega
      · simp at h
  | word =>
    have hrun := wordLoop_le (line.drop (skipws line p))
    rw [hdrop] at hrun
    simp only [attempt, dispatch] at h
    split at h <;> simp only [Step.verdict, Verdict.matched.injEq, reduceCtorEq] at h
    omega
  | lit cp =>
    have hnul := hlit cp rfl
    have hiff := strncmp_eq_zero_iff cp hnul (line.drop (skipws line p))
    simp only [attempt, dispatch] at h
    split at h
    · rename_i hcmp
      have hpre := (hiff.1 hcmp).length_le
      rw [hdrop] at hpre
      (repeat' split at h) <;>
        simp only [Step.verdict, Verdict.matched.injEq, reduceCtorEq, strlen] at h <;> omega
    · simp [Step.verdict] at h

theorem all_loop_cursor (resetlp : Nat) (ts : List Term) :
    ∀ (i lp : Nat) (s s' : State), matchLoop true resetlp ts i lp s = .ret 1 s' →
      lp ≤ s.uuline.length → (∀ L, Term.lit L ∈ ts → '\x00' ∉ L) →
      lp ≤ s'.uulp ∧ s'.uulp ≤ s.uuline.length ∧
      (isspace (charAt s.uuline lp) = false → isspace (charAt s.uuline s'.uulp) = false) := by
  induction ts with
  | nil =>
    intro i lp s s' h hlp _
    simp only [matchLoop, if_true] at h
    have hs := (Outcome.ret.inj h).2
    subst hs
    exact ⟨Nat.le_refl _, hlp, fun h => h⟩
  | cons t rest ih =>
    intro i lp s s' h hlp hlit
    by_cases hi : UUMAX_ARGS ≤ i
    · rw [matchLoop, if_pos hi] at h; exact absurd h (by simp)
    · have hi' : i < UUMAX_ARGS := by omega
      cases hv : attempt s.uuline s.uulp t lp with
      | matched q =>
        obtain ⟨a, ha⟩ := matchLoop_matched true resetlp _ rest _ _ _ hi' hv
        rw [ha, if_pos rfl] at h
        obtain ⟨hq1, hq2⟩ := attempt_matched_bounds s.uulp hlp
          (fun L hL => hlit L (hL ▸ List.mem_cons_self _ _)) hv
        have h1 := le_skipws s.uuline lp
        have h2 := le_skipws s.uuline q
        obtain ⟨h3, h4, h5⟩ := ih _ _ _ _ h (skipws_le_length hq2)
          (fun L hL => hlit L (List.mem_cons_of_mem _ hL))
        exact ⟨by omega, h4, fun _ => h5 (isspace_skipws s.uuline q)⟩
      | no_match q =>
        obtain ⟨a, ha⟩ := matchLoop_no_match true resetlp _ rest _ _ _ hi' hv
        rw [ha, if_pos rfl] at h
        exact absurd (Outcome.ret.inj h).1 (by decide)
      | error m =>
        obtain ⟨a, ha⟩ := matchLoop_error true resetlp _ rest _ _ _ hi' hv
        rw [ha] at h; exact absurd h (by simp)
      | undefined =>
        rw [matchLoop_undefined hv] at h; exact absurd h (by simp)

/-- C18. Cursor invariant on success: for every successful call with at least one
built-in or literal terminal (literal texts being C strings, without NUL), in either
mode, from a cursor within the line, the new cursor is at or after the pre-call cursor,
is not beyond the line's terminator, and points at a character that is not whitespace
(a non-whitespace character of the line or the terminator). -/
theorem cursor_invariant (all : Bool) (s s' : State) (ts : List Term) (hne : ts ≠ [])
    (hcur : s.uulp ≤ s.uuline.length) (hlit : ∀ L, Term.lit L ∈ ts → '\x00' ∉ L)
    (h : _match all ts s = .ret 1 s') :
    s.uulp ≤ s'.uulp ∧ s'.uulp ≤ s.uuline.length ∧
    isspace (charAt s.uuline s'.uulp) = false ∧
    (s'.uulp < s.uuline.length ∨ charAt s.uuline s'.uulp = '\x00') := by
  have key : s.uulp ≤ s'.uulp ∧ s'.uulp ≤ s.uuline.length ∧
      isspace (charAt s.uuline s'.uulp) = false := by
    cases all
    · obtain ⟨k, t, q, _, ht, hv, _, hcur', _⟩ :=
        any_loop_success s.uulp ts 0 { s with argmatch := -1, lpfail := s.uulp } s' h
      have hmem : t ∈ ts := List.getElem?_mem ht
      obtain ⟨hq1, hq2⟩ := attempt_matched_bounds s.uulp hcur
        (fun L hL => hlit L (hL ▸ hmem)) hv
      have h1 := le_skipws s.uuline s.uulp
      have h2 := le_skipws s.uuline q
      have h3 : skipws s.uuline q ≤ s.uuline.length := skipws_le_length hq2
      have hcur'' : s'.uulp = skipws s.uuline q := hcur'
      rw [hcur'']
      exact ⟨by omega, h3, isspace_skipws s.uuline q⟩
    · cases ts with
      | nil => exact absurd rfl hne
      | cons t rest =>
        unfold _match at h
        by_cases hi : UUMAX_ARGS ≤ 0
        · exact absurd hi (by decide)
        · cases hv : attempt s.uuline s.uulp t s.uulp with
          | matched q =>
            obtain ⟨a, ha⟩ := matchLoop_matched true s.uulp t rest 0 s.uulp
              { s with argmatch := -1, lpfail := s.uulp } (by decide) hv
            rw [ha, if_pos rfl] at h
            obtain ⟨hq1, hq2⟩ := attempt_matched_bounds s.uulp hcur
              (fun L hL => hlit L (hL ▸ List.mem_cons_self _ _)) hv
            have h1 := le_skipws s.uuline s.uulp
            have h2 := le_skipws s.uuline q
            obtain ⟨h3, h4, h5⟩ := all_loop_cursor s.uulp rest _ _ _ _ h
              (skipws_le_length hq2) (fun L hL => hlit L (List.mem_cons_of_mem _ hL))
            have h3' : skipws s.uuline q ≤ s'.uulp := h3
            have h4' : s'.uulp ≤ s.uuline.length := h4
            exact ⟨by omega, h4', h5 (isspace_skipws s.uuline q)⟩
          | no_match q =>
            obtain ⟨a, ha⟩ := matchLoop_no_match true s.uulp t rest 0 s.uulp
              { s with argmatch := -1, lpfail := s.uulp } (by decide) hv
            rw [ha, if_pos rfl] at h
            exact absurd (Outcome.ret.inj h).1 (by decide)
          | error m =>
            obtain ⟨a, ha⟩ := matchLoop_error true s.uulp t rest 0 s.uulp
              { s with argmatch := -1, lpfail := s.uulp } (by decide) hv
            rw [ha] at h; exact absurd h (by simp)
          | undefined =>
            have hv' : attempt ({ s with argmatch := -1, lpfail := s.uulp } : State).uuline
                ({ s with argmatch := -1, lpfail := s.uulp } : State).uulp t s.uulp
                = .undefined := hv
            rw [matchLoop_undefined hv'] at h; exact absurd h (by simp)
  refine ⟨key.1, key.2.1, key.2.2, ?_⟩
  by_cases hlt : s'.uulp < s.uuline.length
  · exact Or.inl hlt
  · exact Or.inr (charAt_of_length_le (by omega))

/-- C18 at concrete inputs: `acceptall(integer, eol)` on `"  42 "` leaves the cursor on
the terminator, `accept("match", word)` on `" match 1"` leaves it on the `1`. -/
theorem cursor_invariant_witness :
    (∃ s', _match true [Term.integer, Term.eol] (start "  42 ".toList) = .ret 1 s' ∧
      ((start "  42 ".toList).uulp ≤ s'.uulp ∧ s'.uulp ≤ (start "  42 ".toList).uuline.length ∧
        isspace (charAt (start "  42 ".toList).uuline s'.uulp) = false ∧
        (s'.uulp < (start "  42 ".toList).uuline.length ∨
          charAt (start "  42 ".toList).uuline s'.uulp = '\x00')) ∧
      s'.uulp = 5) ∧
    (∃ s', _match false [Term.lit "match".toList, Term.word] (start " match 1".toList)
        = .ret 1 s' ∧
      ((start " match 1".toList).uulp ≤ s'.uulp ∧
        s'.uulp ≤ (start " match 1".toList).uuline.length ∧
        isspace (charAt (start " match 1".toList).uuline s'.uulp) = false ∧
        (s'.uulp < (start " match 1".toList).uuline.length ∨
          charAt (start " match 1".toList).uuline s'.uulp = '\x00')) ∧
      s'.uulp = 7 ∧ charAt " match 1".toList 7 = '1') :=
  ⟨⟨_, rfl,
     cursor_invariant true (start "  42 ".toList) _ [Term.integer, Term.eol] (by decide)
       (by decide) (fun L hL => by simp at hL) rfl,
     by decide⟩,
   ⟨_, rfl,
     cursor_invariant false (start " match 1".toList) _
       [Term.lit "match".toList, Term.word] (by decide) (by decide)
       (fun L hL => by
         simp only [List.mem_cons, Term.lit.injEq, reduceCtorEq, List.mem_singleton,
           List.not_mem_nil, or_false] at hL
         subst hL
         decide) rfl,
     by decide⟩⟩

/-! ## C19: one terminal, two modes -/

/-- C19. With a single terminal the two modes coincide: for every built-in or literal
terminal `t`, every line and every cursor, `_match(0, 1, t)` and `_match(1, 1, t)` end
the same way (the same return value, or the same fatal condition, or both undefined),
leave the same cursor and write the same capture slots; they differ only in `argmatch`
(0 against -1 on success) and in the failure record. -/
theorem single_terminal_modes (s : State) (t : Term) :
    agreeUpToRecord (_match false [t] s) (_match true [t] s) ∧
    (∀ s1 s2, _match false [t] s = .ret 1 s1 → _match true [t] s = .ret 1 s2 →
      s1.argmatch = 0 ∧ s2.argmatch = -1) := by
  unfold _match
  simp only [matchLoop, show ¬ (UUMAX_ARGS ≤ 0) by decide, if_false, Bool.false_eq_true,
    if_true]
  generalize dispatch s.uuline s.uulp t (skipws s.uuline s.uulp)
    { term := some t, lp := skipws s.uuline s.uulp, len := 0, i := (s.arg 0).i } = st
  cases st with
  | matched q a =>
    simp only [matchLoop, Bool.false_eq_true, if_false, if_true, agreeUpToRecord, true_and,
      and_self]
    intro s1 s2 h1 h2
    have e1 := (Outcome.ret.inj h1).2
    have e2 := (Outcome.ret.inj h2).2
    subst e1 e2
    exact ⟨rfl, rfl⟩
  | no_match q a =>
    simp only [matchLoop, Bool.false_eq_true, if_false, if_true, agreeUpToRecord, true_and,
      and_self]
    intro s1 s2 h1
    exact absurd (Outcome.ret.inj h1).1 (by decide)
  | error m a =>
    simp only [agreeUpToRecord, true_and]
    intro s1 s2 h1
    exact absurd h1 (by simp)
  | undefined =>
    simp only [agreeUpToRecord, true_and]
    intro s1 s2 h1
    exact absurd h1 (by simp)

/-- C19 at concrete inputs: `accept(word)` and `acceptall(word)` on `"abc d"` both
return 1 with the same cursor and the same slot 0, `argmatch` being 0 and -1;
`accept(string)` and `acceptall(string)` on `"\"open"` raise the same condition. -/
theorem single_terminal_modes_witness :
    (∃ s1 s2, _match false [Term.word] (start "abc d".toList) = .ret 1 s1 ∧
      _match true [Term.word] (start "abc d".toList) = .ret 1 s2 ∧
      (s1.argmatch = 0 ∧ s2.argmatch = -1) ∧
      s1.uulp = 4 ∧ s2.uulp = 4 ∧ s1.arg 0 = s2.arg 0) ∧
    agreeUpToRecord (_match false [Term.string] (start "\"open".toList))
      (_match true [Term.string] (start "\"open".toList)) ∧
    (∃ s1, _match false [Term.string] (start "\"open".toList) = .fatal s1 ∧
      _match true [Term.string] (start "\"open".toList) = .fatal s1) :=
  ⟨⟨_, _, rfl, rfl,
     (single_terminal_modes (start "abc d".toList) Term.word).2 _ _ rfl rfl, by decide⟩,
   (single_terminal_modes (start "\"open".toList) Term.string).1,
   ⟨_, rfl, rfl⟩⟩

/-! ## C20: a literal that starts with whitespace -/

/-- The literal branch for a text that starts with a whitespace character. -/
theorem attempt_lit_space (line : List Char) (uulp p : Nat) {c : Char} (cs : List Char)
    (hc : isspace c = true) :
    attempt line uulp (Term.lit (c :: cs)) p = .no_match (skipws line p) := by
  have hne : charAt (c :: cs) 0 ≠ charAt (line.drop (skipws line p)) 0 := by
    intro h
    have hs := isspace_skipws line p
    rw [charAt_drop, Nat.add_zero] at h
    rw [← h] at hs
    simp only [charAt, List.getD_cons_zero] at hs
    rw [hc] at hs
    exact absurd hs (by decide)
  have hcmp : ¬ strncmp (c :: cs) (line.drop (skipws line p)) (strlen (c :: cs)) = 0 := by
    simp only [strlen, List.length_cons]
    exact strncmp_first_ne _ hne
  simp only [attempt, dispatch, hcmp, if_false, Step.verdict]

/-- C20. A literal that starts with whitespace can never match: for every literal
terminal whose first character is a whitespace character (such as `" "` and `"     "`),
every line and every cursor, matching that literal is an ordinary no-match in both modes
(the call returns 0 and leaves the cursor where it was): the leading whitespace of the
line is skipped before the comparison, which then fails on the first character. -/
theorem literal_leading_space (s : State) (all : Bool) (c : Char) (cs : List Char)
    (hc : isspace c = true) :
    attempt s.uuline s.uulp (Term.lit (c :: cs)) s.uulp = .no_match (skipws s.uuline s.uulp) ∧
    ∃ s', _match all [Term.lit (c :: cs)] s = .ret 0 s' ∧ s'.uulp = s.uulp := by
  have hatt := attempt_lit_space s.uuline s.uulp s.uulp cs hc
  obtain ⟨s', h, hcur, _⟩ := match_single_no_match all hatt
  exact ⟨hatt, s', h, hcur⟩

/-- C20 at the literals of the test table: `" "` on the line `" "` and `"     "` on the
line `"      match3     "` are ordinary no-matches. -/
theorem literal_leading_space_witness :
    isspace ' ' = true ∧
    (∃ s', _match false [Term.lit " ".toList] (start " ".toList) = .ret 0 s' ∧
      s'.uulp = (start " ".toList).uulp) ∧
    (∃ s', _match true [Term.lit "     ".toList] (start "      match3     ".toList)
      = .ret 0 s' ∧ s'.uulp = (start "      match3     ".toList).uulp) :=
  ⟨by decide,
   (literal_leading_space (start " ".toList) false ' ' [] (by decide)).2,
   (literal_leading_space (start "      match3     ".toList) true ' ' "    ".toList
     (by decide)).2⟩

/-! ## C21: the reads of the literal branch -/

theorem strncmpReads_inBounds (cp line : List Char) (lp : Nat) :
    ∀ (n k : Nat), k + n ≤ cp.length → lp + k ≤ line.length →
      ∀ r ∈ strncmpReads cp line lp k n, r.inBounds line cp = true := by
  intro n
  induction n with
  | zero => intro k _ _ r hr; simp [strncmpReads] at hr
  | succ n ih =>
    intro k hk hlp r hr
    simp only [strncmpReads, List.mem_cons] at hr
    rcases hr with rfl | rfl | hr
    · simp only [Read.inBounds, decide_eq_true_eq]; omega
    · simp only [Read.inBounds, decide_eq_true_eq]; omega
    · split at hr
      · simp at hr
      · rename_i heq
        split at hr
        · simp at hr
        · rename_i hne
          have heq' : charAt cp k = charAt line (lp + k) := by simpa using heq
          have hlt : lp + k < line.length :=
            lt_length_of_charAt_ne_nul (by rw [← heq']; exact hne)
          exact ih (k + 1) (by omega) (by omega) r hr

/-- The reads of the literal branch stay in bounds for every non-empty literal (a C string,
without NUL), the local `lp` being within the line and at or after the cursor `uulp`. -/
theorem literalReads_inBounds (line : List Char) (uulp lp : Nat) (cp : List Char)
    (hne : cp ≠ []) (hnul : '\x00' ∉ cp) (hcur : uulp ≤ lp) (hlp : lp ≤ line.length) :
    ∀ r ∈ literalReads line uulp cp lp, r.inBounds line cp = true := by
  have hlen : 0 < cp.length := List.length_pos.2 hne
  intro r hr
  simp only [literalReads, List.mem_append] at hr
  rcases hr with hr | hr
  · exact strncmpReads_inBounds cp line lp (strlen cp) 0 (by simp [strlen]) (by omega) r hr
  · split at hr
    · rename_i hcmp
      have hpre := ((strncmp_eq_zero_iff cp hnul (line.drop lp)).1 hcmp).length_le
      rw [List.length_drop] at hpre
      have hlast : (Read.lit ((strlen cp : Int) - 1)).inBounds line cp = true := by
        simp only [Read.inBounds, strlen, decide_eq_true_eq]; omega
      simp only [List.mem_cons] at hr
      rcases hr with rfl | hr
      · exact hlast
      · rw [if_neg (by simp only [strlen]; omega)] at hr
        split at hr
        · simp only [List.mem_singleton] at hr
          subst hr
          simp only [Read.inBounds, strlen, decide_eq_true_eq]; omega
        · simp only [List.mem_cons] at hr
          rcases hr with rfl | hr
          · exact hlast
          · split at hr
            · simp only [List.mem_singleton] at hr
              subst hr
              simp only [Read.inBounds, strlen, decide_eq_true_eq]; omega
            · simp at hr
    · simp at hr

/-- C21, the code at the failing input. For the empty literal `""`, which the test table
passes to `accept()`, on every line and at every position `strncmp(cp, lp, 0)` is 0 and
the branch goes on to read `cp[l-1]` with `l = 0`, the character before the literal: the
only read is at index -1, outside the indices `0..len-1`, and the behaviour of the
dispatch, hence of `accept("")` (here on the test input `"ident"`), is undefined. -/
theorem literal_reads_empty_divergence (line : List Char) (uulp lp : Nat) (a : uuargval) :
    literalReads line uulp "".toList lp = [Read.lit (-1)] ∧
    (Read.lit (-1)).inBounds line "".toList = false ∧
    dispatch line uulp (Term.lit "".toList) lp a = .undefined ∧
    accept [Term.lit "".toList] (start "ident".toList) = .undefined := by
  refine ⟨?_, ?_, ?_, rfl⟩
  · simp [literalReads, strncmpReads, strlen, strncmp]
  · simp [Read.inBounds]
  · simp [dispatch, strlen, strncmp]

end Uparse
